import Mathlib

/-!
Verification of the simplehash repository (Rust): shallow embedding of
the FNV, MurmurHash3, CityHash64 and rendezvous-hashing code in Lean 4,
with theorems settling the specification claims.

Bytes are modelled as natural numbers (a byte is a `Nat < 256`), byte
slices as `List Nat`, and the fixed-width machine integers `u32` / `u64`
as natural numbers reduced modulo `2^32` / `2^64` exactly where the Rust
code wraps.  Rust's `x.wrapping_mul(y)` becomes `x * y % 2^32`,
`x.wrapping_add(y)` becomes `(x + y) % 2^32`, `^` becomes `^^^`,
`<<` / `>>` become `<<<` / `>>>` (with an explicit `% 2^w` where the Rust
type would truncate), and `u32::rotate_left` is embedded bit-for-bit as
`rotl32` below.
-/

set_option maxRecDepth 100000

namespace SimpleHash

/-- The `u32` modulus `2^32`. -/
def M32 : Nat := 2 ^ 32

/-- The `u64` modulus `2^64`. -/
def M64 : Nat := 2 ^ 64

/-- Embedding of `u32::rotate_left(x, r)` for `x < 2^32`, `0 < r < 32`:
the bits shifted out at the top re-enter at the bottom. -/
def rotl32 (x r : Nat) : Nat := ((x <<< r) % 2 ^ 32) ||| (x >>> (32 - r))

/-! ## FNV family (src/fnv.rs) -/

/-- Constant `FNV_32_OFFSET` from src/fnv.rs. -/
def FNV_32_OFFSET : Nat := 0x811c9dc5

/-- Constant `FNV_32_PRIME` from src/fnv.rs. -/
def FNV_32_PRIME : Nat := 0x01000193

/-- Constant `FNV_64_OFFSET` from src/fnv.rs. -/
def FNV_64_OFFSET : Nat := 0xcbf29ce484222325

/-- Constant `FNV_64_PRIME` from src/fnv.rs. -/
def FNV_64_PRIME : Nat := 0x00000100000001b3

/-- State of `FnvHasher32` (src/fnv.rs): a single `u32`. -/
structure FnvHasher32 where
  state : Nat
deriving Repr, DecidableEq

/-- `FnvHasher32::new`: state starts at the 32-bit offset basis. -/
def FnvHasher32.new : FnvHasher32 := ⟨FNV_32_OFFSET⟩

/-- `FnvHasher32::write`: per byte, `state = state.wrapping_mul(FNV_32_PRIME); state ^= b`. -/
def FnvHasher32.write (self : FnvHasher32) (bytes : List Nat) : FnvHasher32 :=
  ⟨bytes.foldl (fun state b => (state * FNV_32_PRIME % M32) ^^^ b) self.state⟩

/-- `FnvHasher32::finish` returns the state. -/
def FnvHasher32.finish (self : FnvHasher32) : Nat := self.state

/-- State of `FnvHasher64` (src/fnv.rs): a single `u64`. -/
structure FnvHasher64 where
  state : Nat
deriving Repr, DecidableEq

/-- `FnvHasher64::new`. -/
def FnvHasher64.new : FnvHasher64 := ⟨FNV_64_OFFSET⟩

/-- `FnvHasher64::write`: per byte, `state = state.wrapping_mul(FNV_64_PRIME); state ^= b`. -/
def FnvHasher64.write (self : FnvHasher64) (bytes : List Nat) : FnvHasher64 :=
  ⟨bytes.foldl (fun state b => (state * FNV_64_PRIME % M64) ^^^ b) self.state⟩

/-- `FnvHasher64::finish` returns the state. -/
def FnvHasher64.finish (self : FnvHasher64) : Nat := self.state

/-- State of `Fnv1aHasher32` (src/fnv.rs). -/
structure Fnv1aHasher32 where
  state : Nat
deriving Repr, DecidableEq

/-- `Fnv1aHasher32::new`. -/
def Fnv1aHasher32.new : Fnv1aHasher32 := ⟨FNV_32_OFFSET⟩

/-- `Fnv1aHasher32::write`: per byte, `state ^= b; state = state.wrapping_mul(FNV_32_PRIME)`. -/
def Fnv1aHasher32.write (self : Fnv1aHasher32) (bytes : List Nat) : Fnv1aHasher32 :=
  ⟨bytes.foldl (fun state b => (state ^^^ b) * FNV_32_PRIME % M32) self.state⟩

/-- `Fnv1aHasher32::finish` returns the state. -/
def Fnv1aHasher32.finish (self : Fnv1aHasher32) : Nat := self.state

/-- State of `Fnv1aHasher64` (src/fnv.rs). -/
structure Fnv1aHasher64 where
  state : Nat
deriving Repr, DecidableEq

/-- `Fnv1aHasher64::new`. -/
def Fnv1aHasher64.new : Fnv1aHasher64 := ⟨FNV_64_OFFSET⟩

/-- `Fnv1aHasher64::write`: per byte, `state ^= b; state = state.wrapping_mul(FNV_64_PRIME)`. -/
def Fnv1aHasher64.write (self : Fnv1aHasher64) (bytes : List Nat) : Fnv1aHasher64 :=
  ⟨bytes.foldl (fun state b => (state ^^^ b) * FNV_64_PRIME % M64) self.state⟩

/-- `Fnv1aHasher64::finish` returns the state. -/
def Fnv1aHasher64.finish (self : Fnv1aHasher64) : Nat := self.state

/-- `fnv1_32` from src/lib.rs: new, write, finish. -/
def fnv1_32 (data : List Nat) : Nat := (FnvHasher32.new.write data).finish

/-- `fnv1a_32` from src/lib.rs. -/
def fnv1a_32 (data : List Nat) : Nat := (Fnv1aHasher32.new.write data).finish

/-- `fnv1_64` from src/lib.rs. -/
def fnv1_64 (data : List Nat) : Nat := (FnvHasher64.new.write data).finish

/-- `fnv1a_64` from src/lib.rs. -/
def fnv1a_64 (data : List Nat) : Nat := (Fnv1aHasher64.new.write data).finish


/-! ## MurmurHash3, 32-bit (src/murmur.rs and src/lib.rs)

The standalone `murmurhash3_32` in src/lib.rs and the incremental
`MurmurHasher32` in src/murmur.rs perform the identical sequence of
operations (same constants, block loop, tail match and finalization), so
they are embedded through shared helper definitions; `murmurhash3_32` is
exactly `new(seed)` -> one `write(data)` -> `finish`. -/

/-- Constant `C1_32` / `c1` of the 32-bit MurmurHash3. -/
def C1_32 : Nat := 0xcc9e2d51

/-- Constant `C2_32` / `c2` of the 32-bit MurmurHash3. -/
def C2_32 : Nat := 0x1b873593

/-- The `k1` transform shared by block and tail processing:
`k1 = k1.wrapping_mul(c1); k1 = k1.rotate_left(15); k1 = k1.wrapping_mul(c2)`. -/
def murmur32Mix (k1 : Nat) : Nat :=
  let k1 := k1 * C1_32 % M32
  let k1 := rotl32 k1 15
  k1 * C2_32 % M32

/-- The block fold of the 32-bit variant:
`h1 ^= k1; h1 = h1.rotate_left(13); h1 = h1.wrapping_mul(5).wrapping_add(0xe6546b64)`
(`k1` here is the already-mixed block word). -/
def murmur32Fold (h1 k1 : Nat) : Nat :=
  let h1 := h1 ^^^ k1
  let h1 := rotl32 h1 13
  (h1 * 5 % M32 + 0xe6546b64) % M32

/-- Little-endian 4-byte word at index `i`:
`data[i] | (data[i+1] << 8) | (data[i+2] << 16) | (data[i+3] << 24)`.
All call sites keep `i + 4 <= data.length`, so `getD` never pads. -/
def murmur32Word (data : List Nat) (i : Nat) : Nat :=
  data.getD i 0 ||| (data.getD (i + 1) 0 <<< 8) ||| (data.getD (i + 2) 0 <<< 16) |||
    (data.getD (i + 3) 0 <<< 24)

/-- The body loop: `for i in 0..nblocks` processes the 4-byte block at
`block_index = i * 4` by the mix and fold above. -/
def murmur32Body (h1 : Nat) (data : List Nat) : Nat :=
  (List.range (data.length / 4)).foldl
    (fun h1 i => murmur32Fold h1 (murmur32Mix (murmur32Word data (i * 4)))) h1

/-- The tail match on `&data[nblocks * 4..]` (length 0-3): remaining bytes are
packed little-endian into `k1`, mixed, and XORed into the state without the
rotate/multiply/add fold. -/
def murmur32Tail (h1 : Nat) (tail : List Nat) : Nat :=
  match tail with
  | [t0, t1, t2] => h1 ^^^ murmur32Mix ((t2 <<< 16) ^^^ (t1 <<< 8) ^^^ t0)
  | [t0, t1] => h1 ^^^ murmur32Mix ((t1 <<< 8) ^^^ t0)
  | [t0] => h1 ^^^ murmur32Mix t0
  | _ => h1

/-- The `fmix32` finalization avalanche shared by both Murmur variants. -/
def fmix32 (h : Nat) : Nat :=
  let h := h ^^^ (h >>> 16)
  let h := h * 0x85ebca6b % M32
  let h := h ^^^ (h >>> 13)
  let h := h * 0xc2b2ae35 % M32
  h ^^^ (h >>> 16)

/-- State of `MurmurHasher32` (src/murmur.rs): running `u32` state plus the
total number of bytes written. -/
structure MurmurHasher32 where
  state : Nat
  length : Nat
deriving Repr, DecidableEq

/-- `MurmurHasher32::new(seed)`. -/
def MurmurHasher32.new (seed : Nat) : MurmurHasher32 := ⟨seed, 0⟩

/-- `MurmurHasher32::write(data)` (src/murmur.rs lines 52-106): processes the
4-byte blocks of this call, then mixes this call's 1-3 tail bytes straight
into the state; no bytes are buffered across calls. -/
def MurmurHasher32.write (self : MurmurHasher32) (data : List Nat) : MurmurHasher32 :=
  { state := murmur32Tail (murmur32Body self.state data) (data.drop (data.length / 4 * 4)),
    length := self.length + data.length }

/-- `MurmurHasher32::finish_u32`: XOR the total length (as `u32`) and apply `fmix32`. -/
def MurmurHasher32.finish_u32 (self : MurmurHasher32) : Nat :=
  fmix32 (self.state ^^^ self.length % M32)

/-- `murmurhash3_32(data, seed)` from src/lib.rs: operation-for-operation the
sequence seed-init, block loop, tail match, length XOR, `fmix32` - i.e. one
`write` on a fresh hasher followed by `finish_u32`. -/
def murmurhash3_32 (data : List Nat) (seed : Nat) : Nat :=
  ((MurmurHasher32.new seed).write data).finish_u32


/-! ## MurmurHash3, 128-bit (src/murmur.rs and src/lib.rs)

As in the 32-bit case, `murmurhash3_128` in src/lib.rs and
`MurmurHasher128` in src/murmur.rs run the identical operation sequence,
so both are embedded through the shared definitions below. -/

/-- Constant `C1_128` / `C1`. -/
def C1_128 : Nat := 0x239b961b

/-- Constant `C2_128` / `C2`. -/
def C2_128 : Nat := 0xab0e9789

/-- Constant `C3_128` / `C3`. -/
def C3_128 : Nat := 0x38b34ae5

/-- Constant `C4_128` / `C4`. -/
def C4_128 : Nat := 0xa1e38b93

/-- Lane-1 word transform: `k1 *= C1; k1 = k1.rotate_left(15); k1 *= C2`. -/
def murmur128Mix1 (k1 : Nat) : Nat := rotl32 (k1 * C1_128 % M32) 15 * C2_128 % M32

/-- Lane-2 word transform: `k2 *= C2; k2 = k2.rotate_left(16); k2 *= C3`. -/
def murmur128Mix2 (k2 : Nat) : Nat := rotl32 (k2 * C2_128 % M32) 16 * C3_128 % M32

/-- Lane-3 word transform: `k3 *= C3; k3 = k3.rotate_left(17); k3 *= C4`. -/
def murmur128Mix3 (k3 : Nat) : Nat := rotl32 (k3 * C3_128 % M32) 17 * C4_128 % M32

/-- Lane-4 word transform: `k4 *= C4; k4 = k4.rotate_left(18); k4 *= C1`. -/
def murmur128Mix4 (k4 : Nat) : Nat := rotl32 (k4 * C4_128 % M32) 18 * C1_128 % M32

/-- The four 32-bit lanes of the 128-bit hasher state. -/
structure M128Lanes where
  h1 : Nat
  h2 : Nat
  h3 : Nat
  h4 : Nat
deriving Repr, DecidableEq

/-- One 16-byte block of the 128-bit body loop, with the cross-lane fold order
of the source: `h1` is updated first (using the previous `h2`), then `h2`
(previous `h3`), then `h3` (previous `h4`), then `h4` using the new `h1`. -/
def murmur128BlockStep (s : M128Lanes) (k1 k2 k3 k4 : Nat) : M128Lanes :=
  let h1 := s.h1 ^^^ murmur128Mix1 k1
  let h1 := rotl32 h1 19
  let h1 := (h1 + s.h2) % M32
  let h1 := (h1 * 5 % M32 + 0x561ccd1b) % M32
  let h2 := s.h2 ^^^ murmur128Mix2 k2
  let h2 := rotl32 h2 17
  let h2 := (h2 + s.h3) % M32
  let h2 := (h2 * 5 % M32 + 0x0bcaa747) % M32
  let h3 := s.h3 ^^^ murmur128Mix3 k3
  let h3 := rotl32 h3 15
  let h3 := (h3 + s.h4) % M32
  let h3 := (h3 * 5 % M32 + 0x96cd1c35) % M32
  let h4 := s.h4 ^^^ murmur128Mix4 k4
  let h4 := rotl32 h4 13
  let h4 := (h4 + h1) % M32
  let h4 := (h4 * 5 % M32 + 0x32ac3b17) % M32
  ⟨h1, h2, h3, h4⟩

/-- The 128-bit body loop: `for i in 0..nblocks` reads the four little-endian
words of the 16-byte block at `block_index = i * 16` and applies the step. -/
def murmur128Body (s : M128Lanes) (data : List Nat) : M128Lanes :=
  (List.range (data.length / 16)).foldl
    (fun s i =>
      murmur128BlockStep s (murmur32Word data (i * 16)) (murmur32Word data (i * 16 + 4))
        (murmur32Word data (i * 16 + 8)) (murmur32Word data (i * 16 + 12)))
    s

/-- The 128-bit tail dispatch on `tail.len()` for `&data[nblocks * 16..]`
(length 0-15): each length packs the leftover bytes little-endian into the
partial words `k1..k4` (reading `tail[i]` as `tail.getD i 0`; every index is
within the given length), puts them through the lane transforms and XORs
them into the lanes, without the rotate/add/multiply block fold.  Lengths 0
and 16+ fall through to the identity, as in the source match. -/
def murmur128Tail (s : M128Lanes) (tail : List Nat) : M128Lanes :=
  let t := fun i => tail.getD i 0
  if tail.length = 15 then
    ⟨s.h1 ^^^ murmur128Mix1 ((t 3 <<< 24) ^^^ (t 2 <<< 16) ^^^ (t 1 <<< 8) ^^^ t 0),
     s.h2 ^^^ murmur128Mix2 ((t 7 <<< 24) ^^^ (t 6 <<< 16) ^^^ (t 5 <<< 8) ^^^ t 4),
     s.h3 ^^^ murmur128Mix3 ((t 11 <<< 24) ^^^ (t 10 <<< 16) ^^^ (t 9 <<< 8) ^^^ t 8),
     s.h4 ^^^ murmur128Mix4 ((t 14 <<< 16) ^^^ (t 13 <<< 8) ^^^ t 12)⟩
  else if tail.length = 14 then
    ⟨s.h1 ^^^ murmur128Mix1 ((t 3 <<< 24) ^^^ (t 2 <<< 16) ^^^ (t 1 <<< 8) ^^^ t 0),
     s.h2 ^^^ murmur128Mix2 ((t 7 <<< 24) ^^^ (t 6 <<< 16) ^^^ (t 5 <<< 8) ^^^ t 4),
     s.h3 ^^^ murmur128Mix3 ((t 11 <<< 24) ^^^ (t 10 <<< 16) ^^^ (t 9 <<< 8) ^^^ t 8),
     s.h4 ^^^ murmur128Mix4 ((t 13 <<< 8) ^^^ t 12)⟩
  else if tail.length = 13 then
    ⟨s.h1 ^^^ murmur128Mix1 ((t 3 <<< 24) ^^^ (t 2 <<< 16) ^^^ (t 1 <<< 8) ^^^ t 0),
     s.h2 ^^^ murmur128Mix2 ((t 7 <<< 24) ^^^ (t 6 <<< 16) ^^^ (t 5 <<< 8) ^^^ t 4),
     s.h3 ^^^ murmur128Mix3 ((t 11 <<< 24) ^^^ (t 10 <<< 16) ^^^ (t 9 <<< 8) ^^^ t 8),
     s.h4 ^^^ murmur128Mix4 (t 12)⟩
  else if tail.length = 12 then
    ⟨s.h1 ^^^ murmur128Mix1 ((t 3 <<< 24) ^^^ (t 2 <<< 16) ^^^ (t 1 <<< 8) ^^^ t 0),
     s.h2 ^^^ murmur128Mix2 ((t 7 <<< 24) ^^^ (t 6 <<< 16) ^^^ (t 5 <<< 8) ^^^ t 4),
     s.h3 ^^^ murmur128Mix3 ((t 11 <<< 24) ^^^ (t 10 <<< 16) ^^^ (t 9 <<< 8) ^^^ t 8),
     s.h4⟩
  else if tail.length = 11 then
    ⟨s.h1 ^^^ murmur128Mix1 ((t 3 <<< 24) ^^^ (t 2 <<< 16) ^^^ (t 1 <<< 8) ^^^ t 0),
     s.h2 ^^^ murmur128Mix2 ((t 7 <<< 24) ^^^ (t 6 <<< 16) ^^^ (t 5 <<< 8) ^^^ t 4),
     s.h3 ^^^ murmur128Mix3 ((t 10 <<< 16) ^^^ (t 9 <<< 8) ^^^ t 8),
     s.h4⟩
  else if tail.length = 10 then
    ⟨s.h1 ^^^ murmur128Mix1 ((t 3 <<< 24) ^^^ (t 2 <<< 16) ^^^ (t 1 <<< 8) ^^^ t 0),
     s.h2 ^^^ murmur128Mix2 ((t 7 <<< 24) ^^^ (t 6 <<< 16) ^^^ (t 5 <<< 8) ^^^ t 4),
     s.h3 ^^^ murmur128Mix3 ((t 9 <<< 8) ^^^ t 8),
     s.h4⟩
  else if tail.length = 9 then
    ⟨s.h1 ^^^ murmur128Mix1 ((t 3 <<< 24) ^^^ (t 2 <<< 16) ^^^ (t 1 <<< 8) ^^^ t 0),
     s.h2 ^^^ murmur128Mix2 ((t 7 <<< 24) ^^^ (t 6 <<< 16) ^^^ (t 5 <<< 8) ^^^ t 4),
     s.h3 ^^^ murmur128Mix3 (t 8),
     s.h4⟩
  else if tail.length = 8 then
    ⟨s.h1 ^^^ murmur128Mix1 ((t 3 <<< 24) ^^^ (t 2 <<< 16) ^^^ (t 1 <<< 8) ^^^ t 0),
     s.h2 ^^^ murmur128Mix2 ((t 7 <<< 24) ^^^ (t 6 <<< 16) ^^^ (t 5 <<< 8) ^^^ t 4),
     s.h3, s.h4⟩
  else if tail.length = 7 then
    ⟨s.h1 ^^^ murmur128Mix1 ((t 3 <<< 24) ^^^ (t 2 <<< 16) ^^^ (t 1 <<< 8) ^^^ t 0),
     s.h2 ^^^ murmur128Mix2 ((t 6 <<< 16) ^^^ (t 5 <<< 8) ^^^ t 4),
     s.h3, s.h4⟩
  else if tail.length = 6 then
    ⟨s.h1 ^^^ murmur128Mix1 ((t 3 <<< 24) ^^^ (t 2 <<< 16) ^^^ (t 1 <<< 8) ^^^ t 0),
     s.h2 ^^^ murmur128Mix2 ((t 5 <<< 8) ^^^ t 4),
     s.h3, s.h4⟩
  else if tail.length = 5 then
    ⟨s.h1 ^^^ murmur128Mix1 ((t 3 <<< 24) ^^^ (t 2 <<< 16) ^^^ (t 1 <<< 8) ^^^ t 0),
     s.h2 ^^^ murmur128Mix2 (t 4),
     s.h3, s.h4⟩
  else if tail.length = 4 then
    ⟨s.h1 ^^^ murmur128Mix1 ((t 3 <<< 24) ^^^ (t 2 <<< 16) ^^^ (t 1 <<< 8) ^^^ t 0),
     s.h2, s.h3, s.h4⟩
  else if tail.length = 3 then
    ⟨s.h1 ^^^ murmur128Mix1 ((t 2 <<< 16) ^^^ (t 1 <<< 8) ^^^ t 0), s.h2, s.h3, s.h4⟩
  else if tail.length = 2 then
    ⟨s.h1 ^^^ murmur128Mix1 ((t 1 <<< 8) ^^^ t 0), s.h2, s.h3, s.h4⟩
  else if tail.length = 1 then
    ⟨s.h1 ^^^ murmur128Mix1 (t 0), s.h2, s.h3, s.h4⟩
  else s

/-- State of `MurmurHasher128` (src/murmur.rs): four `u32` lanes plus the
total number of bytes written. -/
structure MurmurHasher128 where
  lanes : M128Lanes
  length : Nat
deriving Repr, DecidableEq

/-- `MurmurHasher128::new(seed)`: all four lanes start at the seed. -/
def MurmurHasher128.new (seed : Nat) : MurmurHasher128 := ⟨⟨seed, seed, seed, seed⟩, 0⟩

/-- `MurmurHasher128::write(data)` (src/murmur.rs lines 139-529): processes the
16-byte blocks of this call, then mixes this call's 1-15 tail bytes straight
into the lanes; no bytes are buffered across calls. -/
def MurmurHasher128.write (self : MurmurHasher128) (data : List Nat) : MurmurHasher128 :=
  { lanes := murmur128Tail (murmur128Body self.lanes data) (data.drop (data.length / 16 * 16)),
    length := self.length + data.length }

/-- `MurmurHasher128::finish_u128`: XOR the total length into every lane,
propagate `h1` additively, `fmix32` each lane, and pack the lanes as
`(h4 << 96) | (h3 << 64) | (h2 << 32) | h1`. -/
def MurmurHasher128.finish_u128 (self : MurmurHasher128) : Nat :=
  let h1 := self.lanes.h1 ^^^ self.length % M32
  let h2 := self.lanes.h2 ^^^ self.length % M32
  let h3 := self.lanes.h3 ^^^ self.length % M32
  let h4 := self.lanes.h4 ^^^ self.length % M32
  let h1 := (h1 + h2) % M32
  let h1 := (h1 + h3) % M32
  let h1 := (h1 + h4) % M32
  let h2 := (h2 + h1) % M32
  let h3 := (h3 + h1) % M32
  let h4 := (h4 + h1) % M32
  let h1 := fmix32 h1
  let h2 := fmix32 h2
  let h3 := fmix32 h3
  let h4 := fmix32 h4
  (h4 <<< 96) ||| (h3 <<< 64) ||| (h2 <<< 32) ||| h1

/-- `murmurhash3_128(data, seed)` from src/lib.rs: operation-for-operation one
`write` on a fresh hasher followed by `finish_u128`. -/
def murmurhash3_128 (data : List Nat) (seed : Nat) : Nat :=
  ((MurmurHasher128.new seed).write data).finish_u128


/-! ## CityHash64 (src/city.rs)

The two fetch helpers begin with `assert!(i + 4 <= bytes.len())` (resp.
`i + 8`); a failed assertion is a Rust panic, which the embedding models as
`none`.  Every other operation is total, so all the hashing functions live in
`Option Nat` and return `none` exactly when some internal fetch would have
panicked. -/

/-- Constant `K0` of CityHash64. -/
def K0 : Nat := 0xc3a5c85c97cb3127

/-- Constant `K1` of CityHash64. -/
def K1 : Nat := 0xb492b66fbe98f273

/-- Constant `K2` of CityHash64 (also the hash of the empty input). -/
def K2 : Nat := 0x9ae16a3b2f90404f

/-- Value computed by the loop body of `fetch32`:
`result |= (bytes[i + j] as u32) << (j * 8)` for `j in 0..4`. -/
def fetch32v (bytes : List Nat) (i : Nat) : Nat :=
  (List.range 4).foldl (fun result j => result ||| (bytes.getD (i + j) 0 <<< (j * 8))) 0

/-- `fetch32` from src/city.rs: asserts `i + 4 <= bytes.len()` then reads a
32-bit little-endian word. -/
def fetch32 (bytes : List Nat) (i : Nat) : Option Nat :=
  if i + 4 ≤ bytes.length then some (fetch32v bytes i) else none

/-- Value computed by the loop body of `fetch64`:
`result |= (bytes[i + j] as u64) << (j * 8)` for `j in 0..8`. -/
def fetch64v (bytes : List Nat) (i : Nat) : Nat :=
  (List.range 8).foldl (fun result j => result ||| (bytes.getD (i + j) 0 <<< (j * 8))) 0

/-- `fetch64` from src/city.rs: asserts `i + 8 <= bytes.len()` then reads a
64-bit little-endian word. -/
def fetch64 (bytes : List Nat) (i : Nat) : Option Nat :=
  if i + 8 ≤ bytes.length then some (fetch64v bytes i) else none

/-- The `rotate` helper of src/city.rs: `(val >> shift) | (val << (64 - shift))`
in `u64` arithmetic (the left shift truncates modulo `2^64`). -/
def rotate (val shift : Nat) : Nat := (val >>> shift) ||| ((val <<< (64 - shift)) % M64)

/-- `hash_len_16_mul` from src/city.rs. -/
def hash_len_16_mul (u v mul : Nat) : Nat :=
  let a := (u ^^^ v) * mul % M64
  let a := a ^^^ (a >>> 47)
  let b := (v ^^^ a) * mul % M64
  let b := b ^^^ (b >>> 47)
  b * mul % M64

/-- `shift_mix` from src/city.rs. -/
def shift_mix (val : Nat) : Nat := val ^^^ (val >>> 47)

/-- `hash_bytes_small` from src/city.rs (inputs of length 0-16). -/
def hash_bytes_small (bytes : List Nat) : Option Nat :=
  let len := bytes.length
  if 8 ≤ len then do
    let mul := (K2 + len * 2) % M64
    let f0 ← fetch64 bytes 0
    let fl ← fetch64 bytes (len - 8)
    let a := (f0 + K2) % M64
    let b := fl
    let c := (rotate b 37 * mul % M64 + a) % M64
    let d := (rotate a 25 + b) % M64 * mul % M64
    some (hash_len_16_mul c d mul)
  else if 4 ≤ len then do
    let mul := (K2 + len * 2) % M64
    let a ← fetch32 bytes 0
    let b ← fetch32 bytes (len - 4)
    some (hash_len_16_mul ((len + (a <<< 3)) % M64) b mul)
  else if 0 < len then
    let a := bytes.getD 0 0
    let b := bytes.getD (len >>> 1) 0
    let c := bytes.getD (len - 1) 0
    let y := (a + (b <<< 8)) % M64
    let z := (len + (c <<< 2)) % M64
    some (shift_mix ((y * K2 % M64) ^^^ (z * K0 % M64)) * K2 % M64)
  else
    some K2

/-- `hash_bytes_medium` from src/city.rs (inputs of length 17-32). -/
def hash_bytes_medium (bytes : List Nat) : Option Nat := do
  let len := bytes.length
  let mul := (K2 + len * 2) % M64
  let f0 ← fetch64 bytes 0
  let f8 ← fetch64 bytes 8
  let fl8 ← fetch64 bytes (len - 8)
  let fl16 ← fetch64 bytes (len - 16)
  let a := f0 * K1 % M64
  let b := f8
  let c := fl8 * mul % M64
  let d := fl16 * K2 % M64
  let rotated_sum1 := ((rotate ((a + b) % M64) 43 + rotate c 30) % M64 + d) % M64
  let rotated_sum2 := ((a + rotate ((b + K2) % M64) 18) % M64 + c) % M64
  some (hash_len_16_mul rotated_sum1 rotated_sum2 mul)

/-- `weak_hash_32_bytes_values` from src/city.rs: on buffers shorter than 32
bytes returns `(K0, K1)`; otherwise mixes the four words at offsets 0, 8, 16,
24, with a second round touching offsets 32 and 40 when `len > 48` and the
buffer has at least 40 bytes. -/
def weak_hash_32_bytes_values (bytes : List Nat) (len : Nat) : Option (Nat × Nat) :=
  if bytes.length < 32 then some (K0, K1)
  else do
    let f0 ← fetch64 bytes 0
    let f8 ← fetch64 bytes 8
    let f16 ← fetch64 bytes 16
    let f24 ← fetch64 bytes 24
    let a := f0
    let b := f8
    let c := f16
    let d := f24
    let a := (a + f0) % M64
    let b := rotate (((b + a) % M64 + d) % M64) 21
    let c := (c + a) % M64
    let a := (a + (rotate a 44 + b) % M64) % M64
    let vf := (a + d) % M64
    let vs := (c + rotate b 10) % M64
    if 48 < len ∧ 40 ≤ bytes.length then do
      let f32 ← fetch64 bytes 32
      let f40 ← fetch64 bytes (8 + 32)
      let vf := (vf + ((shift_mix (f32 * K2 % M64) * K0 % M64) + a) % M64) % M64
      let vs := (vs + shift_mix ((c + f40) % M64) * K2 % M64) % M64
      some (shift_mix vf, shift_mix vs)
    else
      some (vf, vs)

/-- `hash_bytes_large` from src/city.rs (inputs longer than 32 bytes). -/
def hash_bytes_large (bytes : List Nat) : Option Nat :=
  let len := bytes.length
  if len < 33 then hash_bytes_medium bytes
  else do
    let f0 ← fetch64 bytes 0
    let f8 ← fetch64 bytes 8
    let fl8 ← fetch64 bytes (len - 8)
    let x := f0 * K2 % M64
    let y := f8
    let z := fl8 * K2 % M64
    let v ← weak_hash_32_bytes_values bytes len
    let w ← weak_hash_32_bytes_values (bytes.drop (len - 32)) len
    let f16 ← fetch64 bytes 16
    let f24 ← fetch64 bytes 24
    let fl16 ← fetch64 bytes (len - 16)
    let x := (x * K2 % M64 + f16) % M64
    let y := ((y + rotate x 48 * K2 % M64) % M64 + f24) % M64
    let z := (z * K2 % M64 + fl16) % M64
    let v0 := (v.1 * K2 % M64 + w.2) % M64
    let v1 := (v.2 * K2 % M64 + w.1) % M64
    let a := ((((y + z) % M64) * K2 % M64 + v0) % M64 + w.1) % M64
    let b := (((v1 + w.2) % M64) * K2 % M64 + x) % M64
    let b := (b + y) % M64
    some (hash_len_16_mul a b K2)

/-- State of the streaming `CityHasher64` (src/city.rs): a `u64` seed state
(always 0 as constructed) and the buffer of all bytes written so far. -/
structure CityHasher64 where
  state : Nat
  buffer : List Nat
deriving Repr, DecidableEq

/-- `CityHasher64::new()`: zero state, empty buffer. -/
def CityHasher64.new : CityHasher64 := ⟨0, []⟩

/-- `CityHasher64::hash_bytes`: dispatch on the input length. -/
def CityHasher64.hash_bytes (bytes : List Nat) : Option Nat :=
  if bytes.length ≤ 16 then hash_bytes_small bytes
  else if bytes.length ≤ 32 then hash_bytes_medium bytes
  else hash_bytes_large bytes

/-- `CityHasher64::write`: appends the input bytes to the buffer. -/
def CityHasher64.write (self : CityHasher64) (bytes : List Nat) : CityHasher64 :=
  { self with buffer := self.buffer ++ bytes }

/-- `CityHasher64::finish_raw` (also `finish`): hash the buffer if it is
non-empty, otherwise return the stored state. -/
def CityHasher64.finish_raw (self : CityHasher64) : Option Nat :=
  if self.buffer.isEmpty then some self.state else CityHasher64.hash_bytes self.buffer

/-- `city_hash_64` from src/city.rs. -/
def city_hash_64 (data : List Nat) : Option Nat := CityHasher64.hash_bytes data

/-! ## Rendezvous hashing (src/rendezvous.rs)

`RendezvousHasher` scores every node by hashing the key followed by the node
into a fresh hasher built from its `BuildHasher`.  For a fixed key and build
hasher, the whole scoring pipeline is one function from a node to its `u64`
score; the embedding abstracts it as `score : N -> Nat` and so quantifies
over every hash function the selector could be instantiated with.

Rust's `Iterator::max_by_key` returns the **last** of several equally maximal
elements; `maxByKeyLast` reproduces that.  `rank` sorts by descending score
with `sort_unstable_by_key(Reverse(score))`, which fixes no order between
equal scores; it is embedded as a stable insertion sort on the relation
"score at least as large", which coincides with every sorting algorithm
whenever the scores are pairwise distinct. -/

/-- One step of the `max_by_key` fold: keep the running maximum, replacing it
when the new element's key is at least as large (so ties go to the later
element, as Rust's `Iterator::max_by_key` specifies). -/
def maxByKeyStep (f : α → Nat) (acc : Option α) (x : α) : Option α :=
  match acc with
  | none => some x
  | some m => if f m ≤ f x then some x else some m

/-- Embedding of `Iterator::max_by_key`: the maximum by `f`, the last such
element on ties, `none` on the empty list. -/
def maxByKeyLast (f : α → Nat) (l : List α) : Option α :=
  l.foldl (maxByKeyStep f) none

/-- `RendezvousHasher::select`: maximize the score over `nodes.iter().enumerate()`
and return the winning node. -/
def RendezvousHasher.select (score : α → Nat) (nodes : List α) : Option α :=
  (maxByKeyLast (fun p => score p.2) nodes.enum).map (fun p => p.2)

/-- `RendezvousHasher::select_index`: identical scoring, returns the winning
position. -/
def RendezvousHasher.select_index (score : α → Nat) (nodes : List α) : Option Nat :=
  (maxByKeyLast (fun p => score p.2) nodes.enum).map (fun p => p.1)

/-- `RendezvousHasher::rank`: all nodes sorted by descending score
(`sort_unstable_by_key` with `Reverse(score)`), embedded as a stable insertion
sort; the embedding and the source agree whenever no two scores are equal. -/
def RendezvousHasher.rank (score : α → Nat) (nodes : List α) : List α :=
  List.insertionSort (fun a b => score b ≤ score a) nodes

/-! ## Specification-side model of 32-bit MurmurHash3

For the refinement claim about `murmurhash3_32`, the recurrence is restated
here directly from the specification text, independently of the source
embedding above: little-endian words are built by plain arithmetic
(`b0 + b1*2^8 + ...`), complete 4-byte blocks are consumed by structural
recursion, 1-3 leftover bytes get the multiply/rotate/multiply transform and
a bare XOR, and finalization XORs the total length and applies the five
`fmix32` steps, everything reduced modulo `2^32`. -/

/-- Little-endian packing of a (partial) block, as the spec words it. -/
def specPackLE (bytes : List Nat) : Nat := bytes.foldr (fun b acc => b + acc * 2 ^ 8) 0

/-- The spec transform `k1 = rotl(k1 * 0xcc9e2d51, 15) * 0x1b873593` (mod `2^32`). -/
def specMixK (k1 : Nat) : Nat := rotl32 (k1 * 0xcc9e2d51 % 2 ^ 32) 15 * 0x1b873593 % 2 ^ 32

/-- Block/tail recurrence of the spec: while a complete 4-byte block remains,
it is packed little-endian, transformed, and folded by
`h1 = rotl(h1 XOR k1, 13) * 5 + 0xe6546b64`; the 1-3 remaining bytes are
packed, transformed and XORed in directly with no rotate/add step. -/
def murmur32SpecGo (h1 : Nat) (data : List Nat) : Nat :=
  if h : 4 ≤ data.length then
    murmur32SpecGo
      ((rotl32 (h1 ^^^ specMixK (specPackLE (data.take 4))) 13 * 5 + 0xe6546b64) % 2 ^ 32)
      (data.drop 4)
  else if data.length = 0 then h1
  else h1 ^^^ specMixK (specPackLE data)
termination_by data.length
decreasing_by simp only [List.length_drop]; omega

/-- The full spec recurrence: `h1` starts at the seed, blocks and tail are
processed by `murmur32SpecGo`, then `h1 ^= total_length` and `fmix32`. -/
def murmur32Spec (data : List Nat) (seed : Nat) : Nat :=
  let h1 := murmur32SpecGo seed data
  let h1 := h1 ^^^ data.length % 2 ^ 32
  let h1 := h1 ^^^ (h1 >>> 16)
  let h1 := h1 * 0x85ebca6b % 2 ^ 32
  let h1 := h1 ^^^ (h1 >>> 13)
  let h1 := h1 * 0xc2b2ae35 % 2 ^ 32
  h1 ^^^ (h1 >>> 16)

/-- All four lanes are genuine `u32` values.  Every reachable hasher state
satisfies this; it is the invariant carried through the injectivity proofs. -/
def M128Bounded (s : M128Lanes) : Prop :=
  s.h1 < 2 ^ 32 ∧ s.h2 < 2 ^ 32 ∧ s.h3 < 2 ^ 32 ∧ s.h4 < 2 ^ 32

/-! ## Sanity checks of the embedding

Concrete evaluations: the four FNV/Murmur reference vectors, the six
CityHash64 test vectors hard-coded in the repository's own test module
(src/city.rs, TEST_DATA), and further medium/large-path CityHash64 and
128-bit Murmur values cross-checked against an independent port of the
same source. -/

example : fnv1a_32 [104, 101, 108, 108, 111] = 0x4F9F2CAB := by decide

example : fnv1_32 [] = FNV_32_OFFSET := by decide

example : murmurhash3_32 [] 0 = 0 := by decide

example : murmurhash3_32 [104, 101, 108, 108, 111] 0 = 0x248bfa47 := by decide

example : murmurhash3_32 [97, 97, 97, 97] 0x9747b28c = 0x5a97808a := by decide

example :
    murmurhash3_128 [104, 101, 108, 108, 111, 32, 119, 111, 114, 108, 100] 0 =
      0xda5a83a45b5afa925441a75936baf4f9 := by decide

example : murmurhash3_128 [] 0 = 0 := by decide

example :
    murmurhash3_128 (List.range 31 |>.map (· + 1)) 42 =
      0xff39f8e1ff7a8dc43b86010dfb725fe6 := by decide

example : city_hash_64 [0x87, 0x2a] = some 0xf23effdc30999888 := by decide

example : city_hash_64 [0xb5, 0x3f, 0x9c] = some 0x76c81f1559a343fc := by decide

example : city_hash_64 [0x8c, 0x45, 0x1a, 0x6b] = some 0xe27a8e9c4439c382 := by decide

example : city_hash_64 (List.range 20) = some 0x8dd7e7f1bf16a0e9 := by decide

example : city_hash_64 (List.range 33) = some 0x6349723757e14e39 := by decide

example :
    city_hash_64 (List.range 100 |>.map (fun i => (i * 7 + 3) % 251)) =
      some 0xa1b74544c4bc0da1 := by decide

example :
    city_hash_64 (List.range 128 |>.map (· % 251)) = some 0x5483390710454389 := by decide

/-! ## Claim C5: the FNV functions are byte folds -/

/-- C5: each FNV function equals a left fold over the input bytes in order,
with wrapping arithmetic in its bit width, starting from the offset basis
(0x811c9dc5 / 0xcbf29ce484222325) with prime 0x01000193 / 0x00000100000001b3:
FNV-1 applies state = (state * PRIME) XOR byte and FNV-1a applies
state = (state XOR byte) * PRIME per byte; the empty input returns the
offset basis unchanged. -/
theorem fnv_functions_are_byte_folds (data : List Nat) :
    fnv1_32 data = data.foldl (fun st b => (st * 0x01000193 % 2 ^ 32) ^^^ b) 0x811c9dc5 ∧
    fnv1_64 data =
      data.foldl (fun st b => (st * 0x00000100000001b3 % 2 ^ 64) ^^^ b) 0xcbf29ce484222325 ∧
    fnv1a_32 data = data.foldl (fun st b => (st ^^^ b) * 0x01000193 % 2 ^ 32) 0x811c9dc5 ∧
    fnv1a_64 data =
      data.foldl (fun st b => (st ^^^ b) * 0x00000100000001b3 % 2 ^ 64) 0xcbf29ce484222325 ∧
    fnv1_32 [] = 0x811c9dc5 ∧ fnv1_64 [] = 0xcbf29ce484222325 ∧
    fnv1a_32 [] = 0x811c9dc5 ∧ fnv1a_64 [] = 0xcbf29ce484222325 :=
  ⟨rfl, rfl, rfl, rfl, rfl, rfl, rfl, rfl⟩

/-! ## Claim C2: CityHash64 test vectors -/

/-- C2: city_hash_64 returns the literal test-vector values: K2 on the empty
input, 0x588fb7478bd6b01b on b"hello world" and 0x8af595327a84082a on [0xde]. -/
theorem city_hash_64_test_vectors :
    city_hash_64 [] = some 0x9ae16a3b2f90404f ∧
    city_hash_64 [] = some K2 ∧
    city_hash_64 [104, 101, 108, 108, 111, 32, 119, 111, 114, 108, 100] =
      some 0x588fb7478bd6b01b ∧
    city_hash_64 [0xde] = some 0x8af595327a84082a := by
  refine ⟨by decide, by decide, by decide, by decide⟩

/-! ## Claim C1: the incremental Murmur hashers are not chunking-invariant

Writing the same bytes in two calls split at a non-block-aligned offset
diverges from the single-call hash, because `write` mixes 1-3 (resp. 1-15)
trailing bytes into the state immediately instead of buffering them. -/

/-- C1: concrete divergence of both incremental Murmur hashers at a
non-aligned split: with seed 0, writing [1] then [0,0,0] (resp. [1] then
fifteen zero bytes) yields a different finish value than one write of the
concatenation. -/
theorem murmur_incremental_split_diverges :
    (((MurmurHasher32.new 0).write [1]).write [0, 0, 0]).finish_u32 ≠
      ((MurmurHasher32.new 0).write [1, 0, 0, 0]).finish_u32 ∧
    (((MurmurHasher128.new 0).write [1]).write
        [0, 0, 0, 0, 0, 0, 0, 0, 0, 0, 0, 0, 0, 0, 0]).finish_u128 ≠
      ((MurmurHasher128.new 0).write
        [1, 0, 0, 0, 0, 0, 0, 0, 0, 0, 0, 0, 0, 0, 0, 0]).finish_u128 := by
  refine ⟨by decide, by decide⟩

/-! ## Claim C10: the streaming CityHasher64 -/

/-- Folding `write` over a list of chunks appends their concatenation to the
buffer and leaves the state untouched. -/
theorem cityHasher_foldl_write (ws : List (List Nat)) :
    ∀ st : CityHasher64,
      ws.foldl CityHasher64.write st = ⟨st.state, st.buffer ++ ws.flatten⟩ := by
  induction ws with
  | nil => intro st; simp [CityHasher64.write]
  | cons w ws ih =>
      intro st
      simp only [List.foldl_cons, ih, CityHasher64.write, List.flatten_cons, List.append_assoc]

/-- C10: for the streaming CityHasher64, finish returns city_hash_64 of the
concatenation of all bytes written whenever that concatenation is non-empty
(write only appends to a buffer), but with no bytes written it returns 0,
which differs from city_hash_64 of the empty input (some K2). -/
theorem cityHasher_finish_streams (ws : List (List Nat)) :
    (ws.flatten ≠ [] →
      (ws.foldl CityHasher64.write CityHasher64.new).finish_raw = city_hash_64 ws.flatten) ∧
    (ws.flatten = [] →
      (ws.foldl CityHasher64.write CityHasher64.new).finish_raw = some 0) ∧
    city_hash_64 [] = some 0x9ae16a3b2f90404f ∧ (0 : Nat) ≠ 0x9ae16a3b2f90404f := by
  rw [cityHasher_foldl_write ws CityHasher64.new]
  refine ⟨fun h => ?_, fun h => ?_, by decide, by decide⟩
  · simp [CityHasher64.finish_raw, CityHasher64.new, city_hash_64, h]
  · simp [CityHasher64.finish_raw, CityHasher64.new, h]

/-- Witness for C10: a hasher that received writes [0xde] then [] hashes like
city_hash_64 [0xde], and a hasher that received only an empty write finishes
with 0. -/
theorem cityHasher_finish_streams_witness :
    ([[0xde], []] : List (List Nat)).flatten ≠ [] ∧
    (([[0xde], []] : List (List Nat)).foldl CityHasher64.write CityHasher64.new).finish_raw =
      city_hash_64 ([[0xde], []] : List (List Nat)).flatten ∧
    ([[]] : List (List Nat)).flatten = [] ∧
    (([[]] : List (List Nat)).foldl CityHasher64.write CityHasher64.new).finish_raw = some 0 :=
  ⟨by decide, (cityHasher_finish_streams [[0xde], []]).1 (by decide), by decide,
    (cityHasher_finish_streams [[]]).2.1 (by decide)⟩

/-! ## Rendezvous lemmas (claims C6 and C3) -/

/-- Once the running maximum is `some`, the `max_by_key` fold stays `some`,
and the result is an element that is at least as large (by key) as the
starting accumulator and every list element. -/
theorem maxByKeyLast_go_spec (f : α → Nat) :
    ∀ (l : List α) (m0 : α),
      ∃ m, l.foldl (maxByKeyStep f) (some m0) = some m ∧
        (m = m0 ∨ m ∈ l) ∧ f m0 ≤ f m ∧ ∀ x ∈ l, f x ≤ f m := by
  intro l
  induction l with
  | nil => exact fun m0 => ⟨m0, rfl, Or.inl rfl, le_refl _, by simp⟩
  | cons x l ih =>
      intro m0
      simp only [List.foldl_cons]
      by_cases hx : f m0 ≤ f x
      · obtain ⟨m, hfold, hmem, hle, hall⟩ := ih x
        refine ⟨m, by simpa [maxByKeyStep, hx] using hfold, ?_, le_trans hx hle, ?_⟩
        · rcases hmem with h | h
          · exact Or.inr (h ▸ List.mem_cons_self x l)
          · exact Or.inr (List.mem_cons_of_mem x h)
        · intro y hy
          rcases List.mem_cons.mp hy with h | h
          · exact h ▸ hle
          · exact hall y h
      · obtain ⟨m, hfold, hmem, hle, hall⟩ := ih m0
        refine ⟨m, by simpa [maxByKeyStep, hx] using hfold, ?_, hle, ?_⟩
        · rcases hmem with h | h
          · exact Or.inl h
          · exact Or.inr (List.mem_cons_of_mem x h)
        · intro y hy
          rcases List.mem_cons.mp hy with h | h
          · exact h ▸ le_trans (Nat.le_of_not_le hx) hle
          · exact hall y h

/-- `maxByKeyLast` returns `none` exactly on the empty list. -/
theorem maxByKeyLast_eq_none_iff (f : α → Nat) (l : List α) :
    maxByKeyLast f l = none ↔ l = [] := by
  cases l with
  | nil => simp [maxByKeyLast]
  | cons x l =>
      obtain ⟨m, hfold, -, -, -⟩ := maxByKeyLast_go_spec f l x
      simp [maxByKeyLast, List.foldl_cons, maxByKeyStep, hfold]

/-- The enumerate-then-project pipeline of `select` equals the plain maximum
over the nodes: indices do not influence the key function. -/
theorem maxByKeyLast_enumFrom_snd (score : α → Nat) :
    ∀ (l : List α) (n : Nat) (m0 : Nat × α),
      ((List.enumFrom n l).foldl (maxByKeyStep fun p => score p.2) (some m0)).map
          (fun p => p.2) =
        l.foldl (maxByKeyStep score) (some m0.2) := by
  intro l
  induction l with
  | nil => intro n m0; rfl
  | cons x l ih =>
      intro n m0
      simp only [List.enumFrom_cons, List.foldl_cons]
      by_cases hx : score m0.2 ≤ score x
      · simpa [maxByKeyStep, hx] using ih (n + 1) (n, x)
      · simpa [maxByKeyStep, hx] using ih (n + 1) m0

/-- `select` computes the plain last-maximum of the score over the nodes. -/
theorem select_eq_maxByKeyLast (score : α → Nat) (nodes : List α) :
    RendezvousHasher.select score nodes = maxByKeyLast score nodes := by
  cases nodes with
  | nil => rfl
  | cons x l =>
      show (((x :: l).enumFrom 0).foldl _ none).map _ = _
      simp only [List.enumFrom_cons, List.foldl_cons, maxByKeyLast, maxByKeyStep]
      simpa [maxByKeyStep] using maxByKeyLast_enumFrom_snd score l 1 (0, x)

/-- C6: for every score function (hence every hash function and key),
select and select_index return none iff the node list is empty, and rank of
an empty node list is empty. -/
theorem rendezvous_none_iff_empty (score : α → Nat) (nodes : List α) :
    (RendezvousHasher.select score nodes = none ↔ nodes = []) ∧
    (RendezvousHasher.select_index score nodes = none ↔ nodes = []) ∧
    RendezvousHasher.rank score ([] : List α) = [] := by
  refine ⟨?_, ?_, rfl⟩
  · rw [select_eq_maxByKeyLast]
    exact maxByKeyLast_eq_none_iff score nodes
  · cases nodes with
    | nil => simp [RendezvousHasher.select_index, maxByKeyLast]
    | cons x l =>
        obtain ⟨m, hfold, -, -, -⟩ :=
          maxByKeyLast_go_spec (fun p : Nat × α => score p.2) (List.enumFrom 1 l) (0, x)
        show ((((x :: l).enumFrom 0).foldl _ none).map _ = none ↔ _)
        simp [List.enumFrom_cons, List.foldl_cons, maxByKeyStep, hfold]

/-- C3 counterexample: with a score function that ties all nodes (as a
constant hash function would), the first element of rank - ties broken by
original input order, as the claim states - is the first node, while select
(Rust max_by_key) returns the last maximal node, so they differ. -/
theorem rank_head_ne_select_on_ties :
    (RendezvousHasher.rank (fun _ => 0) ([0, 1] : List Nat)).head? ≠
      RendezvousHasher.select (fun _ => 0) ([0, 1] : List Nat) := by decide

/-- C3 (amended): rank always sorts by descending score, and whenever the
scores of the nodes are pairwise distinct - in particular for any injective
hash function - the first element of rank is exactly the node returned by
select. -/
theorem rank_head_eq_select_of_distinct_scores (score : α → Nat) (nodes : List α)
    (hne : nodes ≠ [])
    (hd : nodes.Pairwise fun a b => score a ≠ score b) :
    (RendezvousHasher.rank score nodes).head? = RendezvousHasher.select score nodes ∧
    (RendezvousHasher.rank score nodes).Sorted fun a b => score b ≤ score a := by
  haveI : IsTotal α fun a b => score b ≤ score a := ⟨fun a b => le_total (score b) (score a)⟩
  haveI : IsTrans α fun a b => score b ≤ score a := ⟨fun _ _ _ h1 h2 => le_trans h2 h1⟩
  have hsorted : (RendezvousHasher.rank score nodes).Sorted fun a b => score b ≤ score a :=
    List.sorted_insertionSort _ nodes
  refine ⟨?_, hsorted⟩
  have hperm : (RendezvousHasher.rank score nodes).Perm nodes :=
    List.perm_insertionSort _ nodes
  obtain ⟨x, l, hx⟩ := List.exists_cons_of_ne_nil hne
  obtain ⟨m, hfold, hmem, hle, hall⟩ := maxByKeyLast_go_spec score l x
  have hsel : RendezvousHasher.select score nodes = some m := by
    rw [select_eq_maxByKeyLast, hx]
    simpa [maxByKeyLast, List.foldl_cons, maxByKeyStep] using hfold
  have hmmem : m ∈ nodes := by
    rcases hmem with h | h
    · exact hx ▸ (h ▸ List.mem_cons_self x l)
    · exact hx ▸ List.mem_cons_of_mem x h
  have hmax : ∀ y ∈ nodes, score y ≤ score m := by
    intro y hy
    rw [hx] at hy
    rcases List.mem_cons.mp hy with h | h
    · exact h ▸ hle
    · exact hall y h
  cases hrank : RendezvousHasher.rank score nodes with
  | nil =>
      rw [hrank] at hperm
      exact absurd hperm.symm.eq_nil hne
  | cons h t =>
      rw [hrank] at hperm hsorted
      rw [hsel]
      have hhead_mem : h ∈ nodes := hperm.mem_iff.mp (List.mem_cons_self h t)
      have hhead_max : ∀ y ∈ nodes, score y ≤ score h := by
        intro y hy
        rcases List.mem_cons.mp (hperm.mem_iff.mpr hy) with hy2 | hy2
        · exact hy2 ▸ le_refl _
        · exact (List.sorted_cons.mp hsorted).1 y hy2
      simp only [List.head?_cons, Option.some.injEq]
      by_contra hne2
      have hs1 : score h ≤ score m := hmax h hhead_mem
      have hs2 : score m ≤ score h := hhead_max m hmmem
      have hsymm : Symmetric fun a b => score a ≠ score b := by
        intro a b hab e
        exact hab e.symm
      exact (hd.forall hsymm hhead_mem hmmem hne2) (le_antisymm hs1 hs2)

/-- Witness for the amended C3 at concrete inputs: nodes [3, 7, 5] with the
identity score have pairwise distinct scores, and rank-head equals select. -/
theorem rank_head_eq_select_of_distinct_scores_witness :
    ([3, 7, 5] : List Nat) ≠ [] ∧
    (([3, 7, 5] : List Nat).Pairwise fun a b => (fun x => x) a ≠ (fun x => x) b) ∧
    (RendezvousHasher.rank (fun x => x) ([3, 7, 5] : List Nat)).head? =
      RendezvousHasher.select (fun x => x) ([3, 7, 5] : List Nat) :=
  ⟨by decide, by decide,
    (rank_head_eq_select_of_distinct_scores (fun x => x) [3, 7, 5] (by decide) (by decide)).1⟩

/-! ## Bitwise bridging lemmas

Little-endian byte assembly in the source uses `|` and `^` on shifted
bytes; the spec-side model packs with plain addition.  The two agree
because the assembled summands occupy disjoint bit ranges. -/

/-- OR with a value below the shifted range is addition. -/
theorem shiftLeft_lor_eq_add (k a b : Nat) (hb : b < 2 ^ k) : (a <<< k) ||| b = a <<< k + b := by
  have h1 : ((a <<< k) ||| b) % 2 ^ k = b := by
    apply Nat.eq_of_testBit_eq
    intro i
    rw [Nat.testBit_mod_two_pow, Nat.testBit_lor, Nat.testBit_shiftLeft]
    by_cases hik : i < k
    · have h2 : ¬ (i ≥ k) := by omega
      simp [hik, h2]
    · have hbi : b.testBit i = false :=
        Nat.testBit_eq_false_of_lt
          (lt_of_lt_of_le hb (Nat.pow_le_pow_right (by norm_num) (by omega)))
      simp [hik, hbi]
  have h2 : ((a <<< k) ||| b) / 2 ^ k = a := by
    rw [← Nat.shiftRight_eq_div_pow]
    apply Nat.eq_of_testBit_eq
    intro i
    rw [Nat.testBit_shiftRight, Nat.testBit_lor, Nat.testBit_shiftLeft]
    have hbi : b.testBit (k + i) = false :=
      Nat.testBit_eq_false_of_lt
        (lt_of_lt_of_le hb (Nat.pow_le_pow_right (by norm_num) (by omega)))
    have hge : k + i ≥ k := by omega
    have hsub : k + i - k = i := by omega
    simp [hbi, hge, hsub]
  calc (a <<< k) ||| b
      = 2 ^ k * (((a <<< k) ||| b) / 2 ^ k) + ((a <<< k) ||| b) % 2 ^ k :=
        (Nat.div_add_mod _ _).symm
    _ = 2 ^ k * a + b := by rw [h1, h2]
    _ = a <<< k + b := by rw [Nat.shiftLeft_eq]; ring

/-- XOR with a value below the shifted range is addition. -/
theorem shiftLeft_xor_eq_add (k a b : Nat) (hb : b < 2 ^ k) : (a <<< k) ^^^ b = a <<< k + b := by
  have h1 : ((a <<< k) ^^^ b) % 2 ^ k = b := by
    apply Nat.eq_of_testBit_eq
    intro i
    rw [Nat.testBit_mod_two_pow, Nat.testBit_xor, Nat.testBit_shiftLeft]
    by_cases hik : i < k
    · have h2 : ¬ (i ≥ k) := by omega
      simp [hik, h2]
    · have hbi : b.testBit i = false :=
        Nat.testBit_eq_false_of_lt
          (lt_of_lt_of_le hb (Nat.pow_le_pow_right (by norm_num) (by omega)))
      simp [hik, hbi]
  have h2 : ((a <<< k) ^^^ b) / 2 ^ k = a := by
    rw [← Nat.shiftRight_eq_div_pow]
    apply Nat.eq_of_testBit_eq
    intro i
    rw [Nat.testBit_shiftRight, Nat.testBit_xor, Nat.testBit_shiftLeft]
    have hbi : b.testBit (k + i) = false :=
      Nat.testBit_eq_false_of_lt
        (lt_of_lt_of_le hb (Nat.pow_le_pow_right (by norm_num) (by omega)))
    have hge : k + i ≥ k := by omega
    have hsub : k + i - k = i := by omega
    simp [hbi, hge, hsub]
  calc (a <<< k) ^^^ b
      = 2 ^ k * (((a <<< k) ^^^ b) / 2 ^ k) + ((a <<< k) ^^^ b) % 2 ^ k :=
        (Nat.div_add_mod _ _).symm
    _ = 2 ^ k * a + b := by rw [h1, h2]
    _ = a <<< k + b := by rw [Nat.shiftLeft_eq]; ring

/-- OR of a value whose low `k` bits are clear with a value below `2^k` is
addition. -/
theorem lor_eq_add_of_low_zero (k A t : Nat) (ht : t < 2 ^ k) (hA : A % 2 ^ k = 0) :
    A ||| t = A + t := by
  obtain ⟨a, ha⟩ := Nat.dvd_of_mod_eq_zero hA
  have ha2 : A = a <<< k := by rw [Nat.shiftLeft_eq, Nat.mul_comm]; exact ha
  rw [ha2, shiftLeft_lor_eq_add k a t ht]

/-- XOR of a value whose low `k` bits are clear with a value below `2^k` is
addition. -/
theorem xor_eq_add_of_low_zero (k A t : Nat) (ht : t < 2 ^ k) (hA : A % 2 ^ k = 0) :
    A ^^^ t = A + t := by
  obtain ⟨a, ha⟩ := Nat.dvd_of_mod_eq_zero hA
  have ha2 : A = a <<< k := by rw [Nat.shiftLeft_eq, Nat.mul_comm]; exact ha
  rw [ha2, shiftLeft_xor_eq_add k a t ht]

/-! ## Claim C4: murmurhash3_32 implements the spec recurrence -/

/-- The OR-assembled first word of a block equals the spec's little-endian
packing of its four bytes. -/
theorem murmur32Word_four (b0 b1 b2 b3 : Nat) (rest : List Nat)
    (h0 : b0 < 256) (h1 : b1 < 256) (h2 : b2 < 256) :
    murmur32Word (b0 :: b1 :: b2 :: b3 :: rest) 0 = specPackLE [b0, b1, b2, b3] := by
  have e0 : murmur32Word (b0 :: b1 :: b2 :: b3 :: rest) 0 =
      ((b0 ||| b1 <<< 8) ||| b2 <<< 16) ||| b3 <<< 24 := rfl
  rw [e0, Nat.lor_comm b0 (b1 <<< 8), Nat.shiftLeft_eq b1 8, Nat.shiftLeft_eq b2 16,
    Nat.shiftLeft_eq b3 24,
    lor_eq_add_of_low_zero 8 (b1 * 2 ^ 8) b0 (by omega) (by omega),
    Nat.lor_comm (b1 * 2 ^ 8 + b0) (b2 * 2 ^ 16),
    lor_eq_add_of_low_zero 16 (b2 * 2 ^ 16) (b1 * 2 ^ 8 + b0) (by omega) (by omega),
    Nat.lor_comm (b2 * 2 ^ 16 + (b1 * 2 ^ 8 + b0)) (b3 * 2 ^ 24),
    lor_eq_add_of_low_zero 24 (b3 * 2 ^ 24) (b2 * 2 ^ 16 + (b1 * 2 ^ 8 + b0)) (by omega)
      (by omega)]
  simp only [specPackLE, List.foldr]
  omega

/-- Peeling one 4-byte block off the front of the body loop. -/
theorem murmur32Body_cons (b0 b1 b2 b3 : Nat) (rest : List Nat) (h : Nat) :
    murmur32Body h (b0 :: b1 :: b2 :: b3 :: rest) =
      murmur32Body
        (murmur32Fold h (murmur32Mix (murmur32Word (b0 :: b1 :: b2 :: b3 :: rest) 0))) rest := by
  unfold murmur32Body
  have hlen : (b0 :: b1 :: b2 :: b3 :: rest).length / 4 = rest.length / 4 + 1 := by
    simp only [List.length_cons]
    omega
  rw [hlen, List.range_succ_eq_map, List.foldl_cons, List.foldl_map]
  apply List.foldl_ext
  intro a i hi
  have hmul : i.succ * 4 = i * 4 + 4 := by omega
  have hword : murmur32Word (b0 :: b1 :: b2 :: b3 :: rest) (i * 4 + 4) =
      murmur32Word rest (i * 4) := rfl
  rw [hmul, hword]

/-- The state after one `write` equals the spec's block/tail recurrence, for
byte-valued input. -/
theorem murmur32_code_eq_specGo :
    ∀ (data : List Nat) (h : Nat), (∀ b ∈ data, b < 256) →
      murmur32Tail (murmur32Body h data) (data.drop (data.length / 4 * 4)) =
        murmur32SpecGo h data
  | [], h, _ => by
      rw [murmur32SpecGo]
      norm_num
      rfl
  | [t0], h, _ => by
      rw [murmur32SpecGo]
      norm_num
      have hbody : murmur32Body h [t0] = h := by simp [murmur32Body]
      rw [hbody]
      have hpack : specPackLE [t0] = t0 := by simp [specPackLE]
      rw [hpack]
      rfl
  | [t0, t1], h, hb => by
      have ht0 : t0 < 256 := hb t0 (by simp)
      have harg : (t1 <<< 8) ^^^ t0 = specPackLE [t0, t1] := by
        rw [shiftLeft_xor_eq_add 8 t1 t0 (by omega), Nat.shiftLeft_eq]
        simp only [specPackLE, List.foldr]
        omega
      rw [murmur32SpecGo]
      norm_num
      have hbody : murmur32Body h [t0, t1] = h := by simp [murmur32Body]
      rw [hbody]
      show h ^^^ murmur32Mix ((t1 <<< 8) ^^^ t0) = h ^^^ specMixK (specPackLE [t0, t1])
      rw [harg]
      rfl
  | [t0, t1, t2], h, hb => by
      have ht0 : t0 < 256 := hb t0 (by simp)
      have ht1 : t1 < 256 := hb t1 (by simp)
      have harg : (t2 <<< 16) ^^^ (t1 <<< 8) ^^^ t0 = specPackLE [t0, t1, t2] := by
        rw [Nat.shiftLeft_eq t2 16, Nat.shiftLeft_eq t1 8,
          xor_eq_add_of_low_zero 16 (t2 * 2 ^ 16) (t1 * 2 ^ 8) (by omega) (by omega),
          xor_eq_add_of_low_zero 8 (t2 * 2 ^ 16 + t1 * 2 ^ 8) t0 (by omega) (by omega)]
        simp only [specPackLE, List.foldr]
        omega
      rw [murmur32SpecGo]
      norm_num
      have hbody : murmur32Body h [t0, t1, t2] = h := by simp [murmur32Body]
      rw [hbody]
      show h ^^^ murmur32Mix ((t2 <<< 16) ^^^ (t1 <<< 8) ^^^ t0) =
        h ^^^ specMixK (specPackLE [t0, t1, t2])
      rw [harg]
      rfl
  | b0 :: b1 :: b2 :: b3 :: rest, h, hb => by
      have h0 : b0 < 256 := hb b0 (by simp)
      have h1 : b1 < 256 := hb b1 (by simp)
      have h2 : b2 < 256 := hb b2 (by simp)
      have hrest : ∀ b ∈ rest, b < 256 := fun b m => hb b (by simp [m])
      have hdroplen : (b0 :: b1 :: b2 :: b3 :: rest).length / 4 * 4 =
          rest.length / 4 * 4 + 4 := by
        simp only [List.length_cons]
        omega
      have hdrop : (b0 :: b1 :: b2 :: b3 :: rest).drop (rest.length / 4 * 4 + 4) =
          rest.drop (rest.length / 4 * 4) := rfl
      rw [murmur32Body_cons, hdroplen, hdrop, murmur32_code_eq_specGo rest _ hrest]
      conv_rhs => rw [murmur32SpecGo]
      rw [dif_pos (show 4 ≤ (b0 :: b1 :: b2 :: b3 :: rest).length by simp)]
      have hstep :
          murmur32Fold h (murmur32Mix (murmur32Word (b0 :: b1 :: b2 :: b3 :: rest) 0)) =
            (rotl32 (h ^^^ specMixK (specPackLE ((b0 :: b1 :: b2 :: b3 :: rest).take 4))) 13 *
                5 + 0xe6546b64) % 2 ^ 32 := by
        rw [show (b0 :: b1 :: b2 :: b3 :: rest).take 4 = [b0, b1, b2, b3] from rfl,
          murmur32Word_four b0 b1 b2 b3 rest h0 h1 h2]
        show (rotl32 (h ^^^ murmur32Mix (specPackLE [b0, b1, b2, b3])) 13 * 5 % M32 +
            0xe6546b64) % M32 = _
        rw [Nat.mod_add_mod]
        rfl
      rw [show (b0 :: b1 :: b2 :: b3 :: rest).drop 4 = rest from rfl]
      exact congrArg (fun z => murmur32SpecGo z rest) hstep

/-- C4: for every byte sequence and every seed, murmurhash3_32 equals the
reference recurrence of the spec: h1 starts at the seed, each complete
4-byte little-endian block is transformed by rotl(k1 * 0xcc9e2d51, 15) *
0x1b873593 and folded by h1 = rotl(h1 XOR k1, 13) * 5 + 0xe6546b64, the 1-3
remaining bytes are packed little-endian, transformed the same way and
XORed in directly, and finally h1 is XORed with the total length and passed
through fmix32, all modulo 2^32. -/
theorem murmurhash3_32_matches_spec (data : List Nat) (seed : Nat)
    (hb : ∀ b ∈ data, b < 256) :
    murmurhash3_32 data seed = murmur32Spec data seed := by
  show fmix32
      (murmur32Tail (murmur32Body seed data) (data.drop (data.length / 4 * 4)) ^^^
        (0 + data.length) % M32) = _
  rw [murmur32_code_eq_specGo data seed hb, Nat.zero_add]
  rfl

/-- Witness for C4 at a concrete input: five bytes, seed 7. -/
theorem murmurhash3_32_matches_spec_witness :
    (∀ b ∈ [1, 2, 3, 4, 5], b < 256) ∧
    murmurhash3_32 [1, 2, 3, 4, 5] 7 = murmur32Spec [1, 2, 3, 4, 5] 7 :=
  ⟨by decide, murmurhash3_32_matches_spec [1, 2, 3, 4, 5] 7 (by decide)⟩

/-! ## Claim C9: CityHash64 is total - every fetch assertion holds -/

/-- A `fetch32` whose assertion holds returns its word. -/
theorem fetch32_eq (bytes : List Nat) (i : Nat) (h : i + 4 ≤ bytes.length) :
    fetch32 bytes i = some (fetch32v bytes i) := if_pos h

/-- A `fetch64` whose assertion holds returns its word. -/
theorem fetch64_eq (bytes : List Nat) (i : Nat) (h : i + 8 ≤ bytes.length) :
    fetch64 bytes i = some (fetch64v bytes i) := if_pos h

/-- `hash_bytes_small` never hits a failing assertion, on any input length. -/
theorem hash_bytes_small_isSome (bytes : List Nat) :
    ∃ v, hash_bytes_small bytes = some v := by
  unfold hash_bytes_small
  by_cases h8 : 8 ≤ bytes.length
  · rw [if_pos h8, fetch64_eq bytes 0 (by omega), fetch64_eq bytes (bytes.length - 8) (by omega)]
    exact ⟨_, rfl⟩
  · rw [if_neg h8]
    by_cases h4 : 4 ≤ bytes.length
    · rw [if_pos h4, fetch32_eq bytes 0 (by omega),
        fetch32_eq bytes (bytes.length - 4) (by omega)]
      exact ⟨_, rfl⟩
    · rw [if_neg h4]
      by_cases h0 : 0 < bytes.length
      · rw [if_pos h0]
        exact ⟨_, rfl⟩
      · rw [if_neg h0]
        exact ⟨_, rfl⟩

/-- `hash_bytes_medium` never hits a failing assertion for lengths of at
least 16. -/
theorem hash_bytes_medium_isSome (bytes : List Nat) (h : 16 ≤ bytes.length) :
    ∃ v, hash_bytes_medium bytes = some v := by
  simp only [hash_bytes_medium, fetch64_eq bytes 0 (by omega), fetch64_eq bytes 8 (by omega),
    fetch64_eq bytes (bytes.length - 8) (by omega),
    fetch64_eq bytes (bytes.length - 16) (by omega), Option.bind_eq_bind, Option.some_bind]
  exact ⟨_, rfl⟩

/-- `weak_hash_32_bytes_values` never hits a failing assertion provided the
second-round guard implies the 48-byte bound, which holds at both call
sites. -/
theorem weak_hash_32_bytes_values_isSome (bytes : List Nat) (len : Nat)
    (hside : 48 < len → 40 ≤ bytes.length → 48 ≤ bytes.length) :
    ∃ p, weak_hash_32_bytes_values bytes len = some p := by
  by_cases h32 : bytes.length < 32
  · refine ⟨(K0, K1), ?_⟩
    unfold weak_hash_32_bytes_values
    rw [if_pos h32]
  · simp only [weak_hash_32_bytes_values, if_neg h32, fetch64_eq bytes 0 (by omega),
      fetch64_eq bytes 8 (by omega), fetch64_eq bytes 16 (by omega),
      fetch64_eq bytes 24 (by omega), Option.bind_eq_bind, Option.some_bind]
    by_cases hc : 48 < len ∧ 40 ≤ bytes.length
    · rw [if_pos hc]
      simp only [fetch64_eq bytes 32 (by omega),
        fetch64_eq bytes (8 + 32) (by have := hside hc.1 hc.2; omega), Option.bind_eq_bind,
        Option.some_bind]
      exact ⟨_, rfl⟩
    · rw [if_neg hc]
      exact ⟨_, rfl⟩

/-- `hash_bytes_large` never hits a failing assertion for lengths above 32. -/
theorem hash_bytes_large_isSome (bytes : List Nat) (h : 32 < bytes.length) :
    ∃ v, hash_bytes_large bytes = some v := by
  unfold hash_bytes_large
  rw [if_neg (by omega : ¬ bytes.length < 33)]
  obtain ⟨p1, hp1⟩ := weak_hash_32_bytes_values_isSome bytes bytes.length (by omega)
  have hdlen : (bytes.drop (bytes.length - 32)).length = 32 := by
    rw [List.length_drop]
    omega
  obtain ⟨p2, hp2⟩ :=
    weak_hash_32_bytes_values_isSome (bytes.drop (bytes.length - 32)) bytes.length
      (by rw [hdlen]; omega)
  simp only [fetch64_eq bytes 0 (by omega), fetch64_eq bytes 8 (by omega),
    fetch64_eq bytes (bytes.length - 8) (by omega), hp1, hp2,
    fetch64_eq bytes 16 (by omega), fetch64_eq bytes 24 (by omega),
    fetch64_eq bytes (bytes.length - 16) (by omega), Option.bind_eq_bind, Option.some_bind]
  exact ⟨_, rfl⟩

/-- C9: city_hash_64 is total: for every byte sequence of every length the
length-dispatched paths only ever fetch in bounds, so no assertion can fail
and a value is always produced. -/
theorem city_hash_64_total (data : List Nat) : ∃ v, city_hash_64 data = some v := by
  unfold city_hash_64 CityHasher64.hash_bytes
  by_cases h16 : data.length ≤ 16
  · rw [if_pos h16]
    exact hash_bytes_small_isSome data
  · rw [if_neg h16]
    by_cases h32 : data.length ≤ 32
    · rw [if_pos h32]
      exact hash_bytes_medium_isSome data (by omega)
    · rw [if_neg h32]
      exact hash_bytes_large_isSome data (by omega)

/-! ## Claim C7: for long inputs, CityHash64 ignores the middle bytes -/

/-- Agreement of prefixes gives pointwise agreement below the cut. -/
theorem getD_eq_of_take_eq {l1 l2 : List Nat} {n : Nat} (h : l1.take n = l2.take n)
    {j : Nat} (hj : j < n) : l1.getD j 0 = l2.getD j 0 := by
  rw [List.getD_eq_getElem?_getD, List.getD_eq_getElem?_getD]
  conv_lhs => rw [← @List.getElem?_take_of_lt Nat l1 n j hj]
  conv_rhs => rw [← @List.getElem?_take_of_lt Nat l2 n j hj]
  rw [h]

/-- Agreement of suffixes gives pointwise agreement beyond the cut. -/
theorem getD_eq_of_drop_eq {l1 l2 : List Nat} {m : Nat} (h : l1.drop m = l2.drop m)
    (k : Nat) : l1.getD (m + k) 0 = l2.getD (m + k) 0 := by
  rw [List.getD_eq_getElem?_getD, List.getD_eq_getElem?_getD, ← List.getElem?_drop l1 m k,
    ← List.getElem?_drop l2 m k, h]

/-- `fetch64v` depends only on the eight bytes of its window. -/
theorem fetch64v_congr (d1 d2 : List Nat) (i : Nat)
    (hw : ∀ j, j < 8 → d1.getD (i + j) 0 = d2.getD (i + j) 0) :
    fetch64v d1 i = fetch64v d2 i := by
  have hr : List.range 8 = [0, 1, 2, 3, 4, 5, 6, 7] := by decide
  simp only [fetch64v, hr, List.foldl_cons, List.foldl_nil]
  rw [hw 0 (by omega), hw 1 (by omega), hw 2 (by omega), hw 3 (by omega), hw 4 (by omega),
    hw 5 (by omega), hw 6 (by omega), hw 7 (by omega)]

/-- `fetch64` depends only on the total length and the eight bytes of its
window. -/
theorem fetch64_congr (d1 d2 : List Nat) (i : Nat) (hlen : d1.length = d2.length)
    (hw : ∀ j, j < 8 → d1.getD (i + j) 0 = d2.getD (i + j) 0) :
    fetch64 d1 i = fetch64 d2 i := by
  unfold fetch64
  rw [hlen, fetch64v_congr d1 d2 i hw]

/-- `weak_hash_32_bytes_values` depends only on the buffer length and the
first 48 bytes of the buffer. -/
theorem weak_hash_32_bytes_values_congr (d1 d2 : List Nat) (len : Nat)
    (hlen : d1.length = d2.length) (hw : ∀ j, j < 48 → d1.getD j 0 = d2.getD j 0) :
    weak_hash_32_bytes_values d1 len = weak_hash_32_bytes_values d2 len := by
  have f0 : fetch64 d1 0 = fetch64 d2 0 :=
    fetch64_congr d1 d2 0 hlen fun j hj => by simpa using hw (0 + j) (by omega)
  have f8 : fetch64 d1 8 = fetch64 d2 8 :=
    fetch64_congr d1 d2 8 hlen fun j hj => hw (8 + j) (by omega)
  have f16 : fetch64 d1 16 = fetch64 d2 16 :=
    fetch64_congr d1 d2 16 hlen fun j hj => hw (16 + j) (by omega)
  have f24 : fetch64 d1 24 = fetch64 d2 24 :=
    fetch64_congr d1 d2 24 hlen fun j hj => hw (24 + j) (by omega)
  have f32 : fetch64 d1 32 = fetch64 d2 32 :=
    fetch64_congr d1 d2 32 hlen fun j hj => hw (32 + j) (by omega)
  have f40 : fetch64 d1 (8 + 32) = fetch64 d2 (8 + 32) :=
    fetch64_congr d1 d2 (8 + 32) hlen fun j hj => by
      have h2 := hw (40 + j) (by omega)
      have he : 40 + j = 8 + 32 + j := by omega
      rw [he] at h2
      exact h2
  unfold weak_hash_32_bytes_values
  rw [hlen, f0, f8, f16, f24, f32, f40]

/-- C7: for every length above 80, any two inputs of that length agreeing on
their first 48 bytes and their last 32 bytes have the same city_hash_64,
no matter the bytes in between. -/
theorem city_hash_64_middle_independent (d1 d2 : List Nat)
    (hlen : d1.length = d2.length) (hL : 80 < d1.length)
    (hpre : d1.take 48 = d2.take 48)
    (hsuf : d1.drop (d1.length - 32) = d2.drop (d2.length - 32)) :
    city_hash_64 d1 = city_hash_64 d2 := by
  have hwin : ∀ j, j < 48 → d1.getD j 0 = d2.getD j 0 := fun j hj =>
    getD_eq_of_take_eq hpre hj
  rw [← hlen] at hsuf
  have hsufw : ∀ k, d1.getD (d1.length - 32 + k) 0 = d2.getD (d1.length - 32 + k) 0 :=
    fun k => getD_eq_of_drop_eq hsuf k
  have e0 : fetch64 d2 0 = fetch64 d1 0 :=
    (fetch64_congr d1 d2 0 hlen fun j hj => by simpa using hwin (0 + j) (by omega)).symm
  have e8 : fetch64 d2 8 = fetch64 d1 8 :=
    (fetch64_congr d1 d2 8 hlen fun j hj => hwin (8 + j) (by omega)).symm
  have e16 : fetch64 d2 16 = fetch64 d1 16 :=
    (fetch64_congr d1 d2 16 hlen fun j hj => hwin (16 + j) (by omega)).symm
  have e24 : fetch64 d2 24 = fetch64 d1 24 :=
    (fetch64_congr d1 d2 24 hlen fun j hj => hwin (24 + j) (by omega)).symm
  have eL8 : fetch64 d2 (d1.length - 8) = fetch64 d1 (d1.length - 8) :=
    (fetch64_congr d1 d2 (d1.length - 8) hlen fun j hj => by
      have h2 := hsufw (24 + j)
      have he : d1.length - 32 + (24 + j) = d1.length - 8 + j := by omega
      rw [he] at h2
      exact h2).symm
  have eL16 : fetch64 d2 (d1.length - 16) = fetch64 d1 (d1.length - 16) :=
    (fetch64_congr d1 d2 (d1.length - 16) hlen fun j hj => by
      have h2 := hsufw (16 + j)
      have he : d1.length - 32 + (16 + j) = d1.length - 16 + j := by omega
      rw [he] at h2
      exact h2).symm
  have eweak1 : weak_hash_32_bytes_values d2 d1.length =
      weak_hash_32_bytes_values d1 d1.length :=
    (weak_hash_32_bytes_values_congr d1 d2 d1.length hlen hwin).symm
  have edrop : d2.drop (d1.length - 32) = d1.drop (d1.length - 32) := hsuf.symm
  unfold city_hash_64 CityHasher64.hash_bytes
  rw [← hlen]
  simp only [if_neg (by omega : ¬ d1.length ≤ 16), if_neg (by omega : ¬ d1.length ≤ 32)]
  unfold hash_bytes_large
  rw [← hlen]
  simp only [if_neg (by omega : ¬ d1.length < 33)]
  rw [e0, e8, eL8, eweak1, edrop, e16, e24, eL16]

/-- Witness for C7: two 81-byte inputs differing exactly at position 48 (the
only position outside both the 48-byte front and the 32-byte back) hash
identically. -/
theorem city_hash_64_middle_independent_witness :
    (List.range 81).length = ((List.range 81).map fun i => if i = 48 then 255 else i).length ∧
    80 < (List.range 81).length ∧
    (List.range 81).take 48 =
      (((List.range 81).map fun i => if i = 48 then 255 else i).take 48) ∧
    (List.range 81).drop ((List.range 81).length - 32) =
      (((List.range 81).map fun i => if i = 48 then 255 else i).drop
        ((((List.range 81).map fun i => if i = 48 then 255 else i)).length - 32)) ∧
    city_hash_64 (List.range 81) =
      city_hash_64 ((List.range 81).map fun i => if i = 48 then 255 else i) :=
  ⟨by decide, by decide, by decide, by decide,
    city_hash_64_middle_independent _ _ (by decide) (by decide) (by decide) (by decide)⟩

/-! ## Claim C8: every Murmur state-update step is invertible in the state

The hash is, for fixed data, a composition of XORs by constants, rotations,
odd-constant wrapping multiplications and wrapping additions, each of which
is a bijection of the 32-bit state space; hence the map from seed to hash
value is injective. -/

/-- Right shift distributes over XOR. -/
theorem shiftRight_xor_distrib (a b k : Nat) : (a ^^^ b) >>> k = (a >>> k) ^^^ (b >>> k) := by
  apply Nat.eq_of_testBit_eq
  intro i
  simp [Nat.testBit_shiftRight, Nat.testBit_xor]

/-- Rotation keeps the value below `2^32`. -/
theorem rotl32_lt (x r : Nat) (hx : x < 2 ^ 32) : rotl32 x r < 2 ^ 32 := by
  unfold rotl32
  exact Nat.or_lt_two_pow (Nat.mod_lt _ (by norm_num))
    (lt_of_le_of_lt (by rw [Nat.shiftRight_eq_div_pow]; exact Nat.div_le_self _ _) hx)

/-- Bit `j` of a rotation picks the input bit `j - r` (wrapped). -/
theorem testBit_rotl32 (x r j : Nat) (hx : x < 2 ^ 32) (hr1 : 0 < r) (hr2 : r < 32)
    (hj : j < 32) :
    (rotl32 x r).testBit j = x.testBit (if r ≤ j then j - r else 32 - r + j) := by
  unfold rotl32
  rw [Nat.testBit_lor, Nat.testBit_mod_two_pow, Nat.testBit_shiftLeft, Nat.testBit_shiftRight]
  by_cases hrj : r ≤ j
  · have hbig : x.testBit (32 - r + j) = false :=
      Nat.testBit_eq_false_of_lt
        (lt_of_lt_of_le hx (Nat.pow_le_pow_right (by norm_num) (by omega)))
    simp [hbig, hj, hrj, ge_iff_le]
  · have hsm : ¬ (r ≤ j) := hrj
    simp [hj, hsm, ge_iff_le, if_neg hrj]

/-- Rotation by a fixed amount is injective below `2^32`. -/
theorem rotl32_inj (r : Nat) (hr1 : 0 < r) (hr2 : r < 32) {x y : Nat} (hx : x < 2 ^ 32)
    (hy : y < 2 ^ 32) (h : rotl32 x r = rotl32 y r) : x = y := by
  apply Nat.eq_of_testBit_eq
  intro i
  by_cases hi : i < 32
  · by_cases hcase : i + r < 32
    · have hj : i + r < 32 := hcase
      have h1 := testBit_rotl32 x r (i + r) hx hr1 hr2 hj
      have h2 := testBit_rotl32 y r (i + r) hy hr1 hr2 hj
      have hif : (if r ≤ i + r then i + r - r else 32 - r + (i + r)) = i := by
        rw [if_pos (by omega)]
        omega
      rw [hif] at h1 h2
      rw [← h1, ← h2, h]
    · have hj : i + r - 32 < 32 := by omega
      have h1 := testBit_rotl32 x r (i + r - 32) hx hr1 hr2 hj
      have h2 := testBit_rotl32 y r (i + r - 32) hy hr1 hr2 hj
      have hif : (if r ≤ i + r - 32 then i + r - 32 - r else 32 - r + (i + r - 32)) = i := by
        rw [if_neg (by omega)]
        omega
      rw [hif] at h1 h2
      rw [← h1, ← h2, h]
  · rw [Nat.testBit_eq_false_of_lt
      (lt_of_lt_of_le hx (Nat.pow_le_pow_right (by norm_num) (by omega))),
      Nat.testBit_eq_false_of_lt
      (lt_of_lt_of_le hy (Nat.pow_le_pow_right (by norm_num) (by omega)))]

/-- Wrapping multiplication by an odd constant is injective below `2^32`. -/
theorem mulmod_inj (c : Nat) (hc : ¬ 2 ∣ c) {x y : Nat} (hx : x < 2 ^ 32) (hy : y < 2 ^ 32)
    (h : x * c % 2 ^ 32 = y * c % 2 ^ 32) : x = y := by
  have hcop : Nat.Coprime (2 ^ 32) c :=
    Nat.Coprime.pow_left 32 ((Nat.Prime.coprime_iff_not_dvd Nat.prime_two).mpr hc)
  have hmod : c * x ≡ c * y [MOD 2 ^ 32] := by
    unfold Nat.ModEq
    rw [Nat.mul_comm c x, Nat.mul_comm c y]
    exact h
  have hxy : x ≡ y [MOD 2 ^ 32] := Nat.ModEq.cancel_left_of_coprime hcop hmod
  unfold Nat.ModEq at hxy
  rw [Nat.mod_eq_of_lt hx, Nat.mod_eq_of_lt hy] at hxy
  exact hxy

/-- The xorshift `x ^= x >> 16` is injective below `2^32` (it is an
involution there). -/
theorem xorshift16_inj {x y : Nat} (hx : x < 2 ^ 32) (hy : y < 2 ^ 32)
    (h : x ^^^ (x >>> 16) = y ^^^ (y >>> 16)) : x = y := by
  have inv : ∀ z : Nat, z < 2 ^ 32 →
      (z ^^^ (z >>> 16)) ^^^ ((z ^^^ (z >>> 16)) >>> 16) = z := by
    intro z hz
    have hz32 : z >>> 16 >>> 16 = 0 := by
      rw [Nat.shiftRight_eq_div_pow, Nat.shiftRight_eq_div_pow]
      rw [Nat.div_div_eq_div_mul]
      exact Nat.div_eq_of_lt (by norm_num at hz ⊢; omega)
    rw [shiftRight_xor_distrib, hz32, Nat.xor_zero, Nat.xor_assoc, Nat.xor_self, Nat.xor_zero]
  rw [← inv x hx, ← inv y hy, h]

/-- XOR shuffle used to invert the 13-bit xorshift. -/
theorem xor_cancel_shuffle (a b c : Nat) : ((a ^^^ b) ^^^ (b ^^^ c)) ^^^ c = a := by
  apply Nat.eq_of_testBit_eq
  intro i
  simp only [Nat.testBit_xor]
  cases hA : a.testBit i <;> cases hB : b.testBit i <;> cases hC : c.testBit i <;> rfl

/-- The xorshift `x ^= x >> 13` is injective below `2^32`. -/
theorem xorshift13_inj {x y : Nat} (hx : x < 2 ^ 32) (hy : y < 2 ^ 32)
    (h : x ^^^ (x >>> 13) = y ^^^ (y >>> 13)) : x = y := by
  have inv : ∀ z : Nat, z < 2 ^ 32 →
      ((z ^^^ (z >>> 13)) ^^^ ((z ^^^ (z >>> 13)) >>> 13)) ^^^
        ((z ^^^ (z >>> 13)) >>> 13 >>> 13) = z := by
    intro z hz
    have hz39 : z >>> 13 >>> 13 >>> 13 = 0 := by
      rw [Nat.shiftRight_eq_div_pow, Nat.shiftRight_eq_div_pow, Nat.shiftRight_eq_div_pow]
      rw [Nat.div_div_eq_div_mul, Nat.div_div_eq_div_mul]
      exact Nat.div_eq_of_lt (by norm_num at hz ⊢; omega)
    rw [shiftRight_xor_distrib z (z >>> 13) 13,
      shiftRight_xor_distrib (z >>> 13) (z >>> 13 >>> 13) 13, hz39, Nat.xor_zero]
    exact xor_cancel_shuffle _ _ _
  calc x = ((x ^^^ (x >>> 13)) ^^^ ((x ^^^ (x >>> 13)) >>> 13)) ^^^
      ((x ^^^ (x >>> 13)) >>> 13 >>> 13) := (inv x hx).symm
    _ = ((y ^^^ (y >>> 13)) ^^^ ((y ^^^ (y >>> 13)) >>> 13)) ^^^
      ((y ^^^ (y >>> 13)) >>> 13 >>> 13) := by rw [h]
    _ = y := inv y hy

/-- `fmix32` stays below `2^32`. -/
theorem fmix32_lt (x : Nat) : fmix32 x < 2 ^ 32 := by
  unfold fmix32
  exact Nat.xor_lt_two_pow (Nat.mod_lt _ (by norm_num [M32]))
    (lt_of_le_of_lt (by rw [Nat.shiftRight_eq_div_pow]; exact Nat.div_le_self _ _)
      (Nat.mod_lt _ (by norm_num [M32])))

/-- `fmix32` is injective below `2^32`. -/
theorem fmix32_inj {x y : Nat} (hx : x < 2 ^ 32) (hy : y < 2 ^ 32)
    (h : fmix32 x = fmix32 y) : x = y := by
  simp only [fmix32] at h
  have hM : M32 = 2 ^ 32 := rfl
  have b1x : x ^^^ (x >>> 16) < 2 ^ 32 :=
    Nat.xor_lt_two_pow hx
      (lt_of_le_of_lt (by rw [Nat.shiftRight_eq_div_pow]; exact Nat.div_le_self _ _) hx)
  have b1y : y ^^^ (y >>> 16) < 2 ^ 32 :=
    Nat.xor_lt_two_pow hy
      (lt_of_le_of_lt (by rw [Nat.shiftRight_eq_div_pow]; exact Nat.div_le_self _ _) hy)
  have b2x : (x ^^^ (x >>> 16)) * 0x85ebca6b % M32 < 2 ^ 32 := Nat.mod_lt _ (by norm_num [M32])
  have b2y : (y ^^^ (y >>> 16)) * 0x85ebca6b % M32 < 2 ^ 32 := Nat.mod_lt _ (by norm_num [M32])
  have b3x : (x ^^^ (x >>> 16)) * 0x85ebca6b % M32 ^^^
      ((x ^^^ (x >>> 16)) * 0x85ebca6b % M32) >>> 13 < 2 ^ 32 :=
    Nat.xor_lt_two_pow b2x
      (lt_of_le_of_lt (by rw [Nat.shiftRight_eq_div_pow]; exact Nat.div_le_self _ _) b2x)
  have b3y : (y ^^^ (y >>> 16)) * 0x85ebca6b % M32 ^^^
      ((y ^^^ (y >>> 16)) * 0x85ebca6b % M32) >>> 13 < 2 ^ 32 :=
    Nat.xor_lt_two_pow b2y
      (lt_of_le_of_lt (by rw [Nat.shiftRight_eq_div_pow]; exact Nat.div_le_self _ _) b2y)
  have b4x : ((x ^^^ (x >>> 16)) * 0x85ebca6b % M32 ^^^
      ((x ^^^ (x >>> 16)) * 0x85ebca6b % M32) >>> 13) * 0xc2b2ae35 % M32 < 2 ^ 32 :=
    Nat.mod_lt _ (by norm_num [M32])
  have b4y : ((y ^^^ (y >>> 16)) * 0x85ebca6b % M32 ^^^
      ((y ^^^ (y >>> 16)) * 0x85ebca6b % M32) >>> 13) * 0xc2b2ae35 % M32 < 2 ^ 32 :=
    Nat.mod_lt _ (by norm_num [M32])
  have h4 := xorshift16_inj b4x b4y h
  rw [hM] at h4
  have h3 := mulmod_inj 0xc2b2ae35 (by decide) b3x b3y h4
  have h2 := xorshift13_inj b2x b2y h3
  rw [hM] at h2
  have h1 := mulmod_inj 0x85ebca6b (by decide) b1x b1y h2
  exact xorshift16_inj hx hy h1

/-- The mixed block word is below `2^32`. -/
theorem murmur32Mix_lt (k : Nat) : murmur32Mix k < 2 ^ 32 := by
  simp only [murmur32Mix]
  exact Nat.mod_lt _ (by norm_num [M32])

/-- The block fold always leaves the state below `2^32`. -/
theorem murmur32Fold_lt (h k : Nat) : murmur32Fold h k < 2 ^ 32 := by
  simp only [murmur32Fold]
  exact Nat.mod_lt _ (by norm_num [M32])

/-- Cancellation of a wrapping addition of a constant. -/
theorem addmod_cancel {u v c : Nat} (hu : u < 2 ^ 32) (hv : v < 2 ^ 32)
    (h : (u + c) % 2 ^ 32 = (v + c) % 2 ^ 32) : u = v := by omega

/-- The block fold is injective in the state, for any fixed mixed word. -/
theorem murmur32Fold_inj (k : Nat) (hk : k < 2 ^ 32) {s1 s2 : Nat} (h1 : s1 < 2 ^ 32)
    (h2 : s2 < 2 ^ 32) (h : murmur32Fold s1 k = murmur32Fold s2 k) : s1 = s2 := by
  simp only [murmur32Fold] at h
  have hM : M32 = 2 ^ 32 := rfl
  rw [hM] at h
  have hmul : rotl32 (s1 ^^^ k) 13 * 5 % 2 ^ 32 = rotl32 (s2 ^^^ k) 13 * 5 % 2 ^ 32 :=
    addmod_cancel (Nat.mod_lt _ (by norm_num)) (Nat.mod_lt _ (by norm_num)) h
  have hrot : rotl32 (s1 ^^^ k) 13 = rotl32 (s2 ^^^ k) 13 :=
    mulmod_inj 5 (by decide) (rotl32_lt _ 13 (Nat.xor_lt_two_pow h1 hk))
      (rotl32_lt _ 13 (Nat.xor_lt_two_pow h2 hk)) hmul
  have hxor : s1 ^^^ k = s2 ^^^ k :=
    rotl32_inj 13 (by norm_num) (by norm_num) (Nat.xor_lt_two_pow h1 hk)
      (Nat.xor_lt_two_pow h2 hk) hrot
  exact Nat.xor_left_inj.mp hxor

/-- The block loop keeps the state below `2^32`. -/
theorem murmur32Body_lt (data : List Nat) {s : Nat} (hs : s < 2 ^ 32) :
    murmur32Body s data < 2 ^ 32 := by
  unfold murmur32Body
  generalize List.range (data.length / 4) = l
  induction l generalizing s with
  | nil => exact hs
  | cons i l ih =>
      rw [List.foldl_cons]
      exact ih (murmur32Fold_lt _ _)

/-- The block loop is injective in the starting state. -/
theorem murmur32Body_inj (data : List Nat) {s1 s2 : Nat} (h1 : s1 < 2 ^ 32)
    (h2 : s2 < 2 ^ 32) (h : murmur32Body s1 data = murmur32Body s2 data) : s1 = s2 := by
  unfold murmur32Body at h
  revert h
  generalize List.range (data.length / 4) = l
  induction l generalizing s1 s2 with
  | nil => exact fun h => h
  | cons i l ih =>
      rw [List.foldl_cons, List.foldl_cons]
      intro h
      exact murmur32Fold_inj _ (murmur32Mix_lt _) h1 h2
        (ih (murmur32Fold_lt _ _) (murmur32Fold_lt _ _) h)

/-- The tail mix keeps the state below `2^32`. -/
theorem murmur32Tail_lt (tail : List Nat) {s : Nat} (hs : s < 2 ^ 32) :
    murmur32Tail s tail < 2 ^ 32 := by
  rcases tail with _ | ⟨t0, _ | ⟨t1, _ | ⟨t2, _ | ⟨t3, rest⟩⟩⟩⟩ <;>
    first
      | exact hs
      | exact Nat.xor_lt_two_pow hs (murmur32Mix_lt _)

/-- The tail mix is injective in the state. -/
theorem murmur32Tail_inj (tail : List Nat) {s1 s2 : Nat}
    (h : murmur32Tail s1 tail = murmur32Tail s2 tail) : s1 = s2 := by
  rcases tail with _ | ⟨t0, _ | ⟨t1, _ | ⟨t2, _ | ⟨t3, rest⟩⟩⟩⟩ <;>
    first
      | exact h
      | exact Nat.xor_left_inj.mp h

/-- For fixed non-degenerate data, the 32-bit hash is injective in the seed. -/
theorem murmurhash3_32_seed_inj (data : List Nat) {s1 s2 : Nat} (h1 : s1 < 2 ^ 32)
    (h2 : s2 < 2 ^ 32) (h : murmurhash3_32 data s1 = murmurhash3_32 data s2) : s1 = s2 := by
  unfold murmurhash3_32 MurmurHasher32.finish_u32 MurmurHasher32.write MurmurHasher32.new at h
  simp only at h
  have hb1 : murmur32Tail (murmur32Body s1 data) (data.drop (data.length / 4 * 4)) < 2 ^ 32 :=
    murmur32Tail_lt _ (murmur32Body_lt data h1)
  have hb2 : murmur32Tail (murmur32Body s2 data) (data.drop (data.length / 4 * 4)) < 2 ^ 32 :=
    murmur32Tail_lt _ (murmur32Body_lt data h2)
  have hlen : (0 + data.length) % M32 < 2 ^ 32 := Nat.mod_lt _ (by norm_num [M32])
  have hfm := fmix32_inj (Nat.xor_lt_two_pow hb1 hlen) (Nat.xor_lt_two_pow hb2 hlen) h
  have htail := Nat.xor_left_inj.mp hfm
  exact murmur32Body_inj data h1 h2 (murmur32Tail_inj _ htail)

/-- The mixed lane-1 word is below `2^32`. -/
theorem murmur128Mix1_lt (k : Nat) : murmur128Mix1 k < 2 ^ 32 := Nat.mod_lt _ (by norm_num [M32])

/-- The mixed lane-2 word is below `2^32`. -/
theorem murmur128Mix2_lt (k : Nat) : murmur128Mix2 k < 2 ^ 32 := Nat.mod_lt _ (by norm_num [M32])

/-- The mixed lane-3 word is below `2^32`. -/
theorem murmur128Mix3_lt (k : Nat) : murmur128Mix3 k < 2 ^ 32 := Nat.mod_lt _ (by norm_num [M32])

/-- The mixed lane-4 word is below `2^32`. -/
theorem murmur128Mix4_lt (k : Nat) : murmur128Mix4 k < 2 ^ 32 := Nat.mod_lt _ (by norm_num [M32])

/-- One 128-bit lane update is injective in its own previous lane value, for
fixed mixed word and fixed cross-lane addend. -/
theorem lane128_inj (r : Nat) (hr1 : 0 < r) (hr2 : r < 32) (m c : Nat) (hm : m < 2 ^ 32)
    {a b : Nat} (ha : a < 2 ^ 32) (hb : b < 2 ^ 32) {u : Nat}
    (h : ((rotl32 (a ^^^ m) r + u) % M32 * 5 % M32 + c) % M32 =
      ((rotl32 (b ^^^ m) r + u) % M32 * 5 % M32 + c) % M32) : a = b := by
  have hM : M32 = 2 ^ 32 := rfl
  rw [hM] at h
  have h5 := addmod_cancel (Nat.mod_lt _ (by norm_num)) (Nat.mod_lt _ (by norm_num)) h
  have hadd := mulmod_inj 5 (by decide) (Nat.mod_lt _ (by norm_num))
    (Nat.mod_lt _ (by norm_num)) h5
  have hrot : rotl32 (a ^^^ m) r = rotl32 (b ^^^ m) r :=
    addmod_cancel (rotl32_lt _ r (Nat.xor_lt_two_pow ha hm))
      (rotl32_lt _ r (Nat.xor_lt_two_pow hb hm)) hadd
  exact Nat.xor_left_inj.mp
    (rotl32_inj r hr1 hr2 (Nat.xor_lt_two_pow ha hm) (Nat.xor_lt_two_pow hb hm) hrot)

/-- The 128-bit block step always leaves all four lanes below `2^32`. -/
theorem murmur128BlockStep_bounded (s : M128Lanes) (k1 k2 k3 k4 : Nat) :
    M128Bounded (murmur128BlockStep s k1 k2 k3 k4) := by
  refine ⟨?_, ?_, ?_, ?_⟩ <;> exact Nat.mod_lt _ (by norm_num [M32])

/-- The 128-bit block step is injective in the bounded lane state. -/
theorem murmur128BlockStep_inj (k1 k2 k3 k4 : Nat) {s t : M128Lanes}
    (hs : M128Bounded s) (ht : M128Bounded t)
    (h : murmur128BlockStep s k1 k2 k3 k4 = murmur128BlockStep t k1 k2 k3 k4) : s = t := by
  rcases s with ⟨a1, a2, a3, a4⟩
  rcases t with ⟨b1, b2, b3, b4⟩
  obtain ⟨ha1, ha2, ha3, ha4⟩ := hs
  obtain ⟨hb1, hb2, hb3, hb4⟩ := ht
  have e1 := congrArg M128Lanes.h1 h
  have e2 := congrArg M128Lanes.h2 h
  have e3 := congrArg M128Lanes.h3 h
  have e4 := congrArg M128Lanes.h4 h
  simp only [murmur128BlockStep] at e1 e2 e3 e4
  rw [e1] at e4
  have q4 : a4 = b4 :=
    lane128_inj 13 (by norm_num) (by norm_num) _ _ (murmur128Mix4_lt k4) ha4 hb4 e4
  rw [q4] at e3
  have q3 : a3 = b3 :=
    lane128_inj 15 (by norm_num) (by norm_num) _ _ (murmur128Mix3_lt k3) ha3 hb3 e3
  rw [q3] at e2
  have q2 : a2 = b2 :=
    lane128_inj 17 (by norm_num) (by norm_num) _ _ (murmur128Mix2_lt k2) ha2 hb2 e2
  rw [q2] at e1
  have q1 : a1 = b1 :=
    lane128_inj 19 (by norm_num) (by norm_num) _ _ (murmur128Mix1_lt k1) ha1 hb1 e1
  simp only [M128Lanes.mk.injEq]
  exact ⟨q1, q2, q3, q4⟩

/-- The 128-bit block loop preserves lane boundedness. -/
theorem murmur128Body_bounded (data : List Nat) {s : M128Lanes} (hs : M128Bounded s) :
    M128Bounded (murmur128Body s data) := by
  unfold murmur128Body
  generalize List.range (data.length / 16) = l
  induction l generalizing s with
  | nil => exact hs
  | cons i l ih =>
      rw [List.foldl_cons]
      exact ih (murmur128BlockStep_bounded _ _ _ _ _)

/-- The 128-bit block loop is injective in the bounded starting state. -/
theorem murmur128Body_inj (data : List Nat) {s t : M128Lanes} (hs : M128Bounded s)
    (ht : M128Bounded t) (h : murmur128Body s data = murmur128Body t data) : s = t := by
  unfold murmur128Body at h
  revert h
  generalize List.range (data.length / 16) = l
  induction l generalizing s t with
  | nil => exact fun h => h
  | cons i l ih =>
      rw [List.foldl_cons, List.foldl_cons]
      intro h
      exact murmur128BlockStep_inj _ _ _ _ hs ht
        (ih (murmur128BlockStep_bounded _ _ _ _ _) (murmur128BlockStep_bounded _ _ _ _ _) h)

/-- The 128-bit tail mix preserves lane boundedness. -/
theorem murmur128Tail_bounded (tail : List Nat) {s : M128Lanes} (hs : M128Bounded s) :
    M128Bounded (murmur128Tail s tail) := by
  obtain ⟨h1, h2, h3, h4⟩ := hs
  rcases s with ⟨a1, a2, a3, a4⟩
  simp only [murmur128Tail]
  by_cases c15 : tail.length = 15
  · rw [if_pos c15]
    refine ⟨?_, ?_, ?_, ?_⟩
    · exact Nat.xor_lt_two_pow h1 (murmur128Mix1_lt _)
    · exact Nat.xor_lt_two_pow h2 (murmur128Mix2_lt _)
    · exact Nat.xor_lt_two_pow h3 (murmur128Mix3_lt _)
    · exact Nat.xor_lt_two_pow h4 (murmur128Mix4_lt _)
  rw [if_neg c15]
  by_cases c14 : tail.length = 14
  · rw [if_pos c14]
    refine ⟨?_, ?_, ?_, ?_⟩
    · exact Nat.xor_lt_two_pow h1 (murmur128Mix1_lt _)
    · exact Nat.xor_lt_two_pow h2 (murmur128Mix2_lt _)
    · exact Nat.xor_lt_two_pow h3 (murmur128Mix3_lt _)
    · exact Nat.xor_lt_two_pow h4 (murmur128Mix4_lt _)
  rw [if_neg c14]
  by_cases c13 : tail.length = 13
  · rw [if_pos c13]
    refine ⟨?_, ?_, ?_, ?_⟩
    · exact Nat.xor_lt_two_pow h1 (murmur128Mix1_lt _)
    · exact Nat.xor_lt_two_pow h2 (murmur128Mix2_lt _)
    · exact Nat.xor_lt_two_pow h3 (murmur128Mix3_lt _)
    · exact Nat.xor_lt_two_pow h4 (murmur128Mix4_lt _)
  rw [if_neg c13]
  by_cases c12 : tail.length = 12
  · rw [if_pos c12]
    refine ⟨?_, ?_, ?_, ?_⟩
    · exact Nat.xor_lt_two_pow h1 (murmur128Mix1_lt _)
    · exact Nat.xor_lt_two_pow h2 (murmur128Mix2_lt _)
    · exact Nat.xor_lt_two_pow h3 (murmur128Mix3_lt _)
    · exact h4
  rw [if_neg c12]
  by_cases c11 : tail.length = 11
  · rw [if_pos c11]
    refine ⟨?_, ?_, ?_, ?_⟩
    · exact Nat.xor_lt_two_pow h1 (murmur128Mix1_lt _)
    · exact Nat.xor_lt_two_pow h2 (murmur128Mix2_lt _)
    · exact Nat.xor_lt_two_pow h3 (murmur128Mix3_lt _)
    · exact h4
  rw [if_neg c11]
  by_cases c10 : tail.length = 10
  · rw [if_pos c10]
    refine ⟨?_, ?_, ?_, ?_⟩
    · exact Nat.xor_lt_two_pow h1 (murmur128Mix1_lt _)
    · exact Nat.xor_lt_two_pow h2 (murmur128Mix2_lt _)
    · exact Nat.xor_lt_two_pow h3 (murmur128Mix3_lt _)
    · exact h4
  rw [if_neg c10]
  by_cases c9 : tail.length = 9
  · rw [if_pos c9]
    refine ⟨?_, ?_, ?_, ?_⟩
    · exact Nat.xor_lt_two_pow h1 (murmur128Mix1_lt _)
    · exact Nat.xor_lt_two_pow h2 (murmur128Mix2_lt _)
    · exact Nat.xor_lt_two_pow h3 (murmur128Mix3_lt _)
    · exact h4
  rw [if_neg c9]
  by_cases c8 : tail.length = 8
  · rw [if_pos c8]
    refine ⟨?_, ?_, ?_, ?_⟩
    · exact Nat.xor_lt_two_pow h1 (murmur128Mix1_lt _)
    · exact Nat.xor_lt_two_pow h2 (murmur128Mix2_lt _)
    · exact h3
    · exact h4
  rw [if_neg c8]
  by_cases c7 : tail.length = 7
  · rw [if_pos c7]
    refine ⟨?_, ?_, ?_, ?_⟩
    · exact Nat.xor_lt_two_pow h1 (murmur128Mix1_lt _)
    · exact Nat.xor_lt_two_pow h2 (murmur128Mix2_lt _)
    · exact h3
    · exact h4
  rw [if_neg c7]
  by_cases c6 : tail.length = 6
  · rw [if_pos c6]
    refine ⟨?_, ?_, ?_, ?_⟩
    · exact Nat.xor_lt_two_pow h1 (murmur128Mix1_lt _)
    · exact Nat.xor_lt_two_pow h2 (murmur128Mix2_lt _)
    · exact h3
    · exact h4
  rw [if_neg c6]
  by_cases c5 : tail.length = 5
  · rw [if_pos c5]
    refine ⟨?_, ?_, ?_, ?_⟩
    · exact Nat.xor_lt_two_pow h1 (murmur128Mix1_lt _)
    · exact Nat.xor_lt_two_pow h2 (murmur128Mix2_lt _)
    · exact h3
    · exact h4
  rw [if_neg c5]
  by_cases c4 : tail.length = 4
  · rw [if_pos c4]
    refine ⟨?_, ?_, ?_, ?_⟩
    · exact Nat.xor_lt_two_pow h1 (murmur128Mix1_lt _)
    · exact h2
    · exact h3
    · exact h4
  rw [if_neg c4]
  by_cases c3 : tail.length = 3
  · rw [if_pos c3]
    refine ⟨?_, ?_, ?_, ?_⟩
    · exact Nat.xor_lt_two_pow h1 (murmur128Mix1_lt _)
    · exact h2
    · exact h3
    · exact h4
  rw [if_neg c3]
  by_cases c2 : tail.length = 2
  · rw [if_pos c2]
    refine ⟨?_, ?_, ?_, ?_⟩
    · exact Nat.xor_lt_two_pow h1 (murmur128Mix1_lt _)
    · exact h2
    · exact h3
    · exact h4
  rw [if_neg c2]
  by_cases c1 : tail.length = 1
  · rw [if_pos c1]
    refine ⟨?_, ?_, ?_, ?_⟩
    · exact Nat.xor_lt_two_pow h1 (murmur128Mix1_lt _)
    · exact h2
    · exact h3
    · exact h4
  rw [if_neg c1]
  exact ⟨h1, h2, h3, h4⟩

/-- The 128-bit tail mix is injective in the lane state. -/
theorem murmur128Tail_inj (tail : List Nat) {s t : M128Lanes}
    (h : murmur128Tail s tail = murmur128Tail t tail) : s = t := by
  rcases s with ⟨a1, a2, a3, a4⟩
  rcases t with ⟨b1, b2, b3, b4⟩
  simp only [murmur128Tail] at h
  by_cases c15 : tail.length = 15
  · rw [if_pos c15, if_pos c15] at h
    injection h with e1 e2 e3 e4
    simp only [M128Lanes.mk.injEq]
    refine ⟨?_, ?_, ?_, ?_⟩
    · exact Nat.xor_left_inj.mp e1
    · exact Nat.xor_left_inj.mp e2
    · exact Nat.xor_left_inj.mp e3
    · exact Nat.xor_left_inj.mp e4
  rw [if_neg c15, if_neg c15] at h
  by_cases c14 : tail.length = 14
  · rw [if_pos c14, if_pos c14] at h
    injection h with e1 e2 e3 e4
    simp only [M128Lanes.mk.injEq]
    refine ⟨?_, ?_, ?_, ?_⟩
    · exact Nat.xor_left_inj.mp e1
    · exact Nat.xor_left_inj.mp e2
    · exact Nat.xor_left_inj.mp e3
    · exact Nat.xor_left_inj.mp e4
  rw [if_neg c14, if_neg c14] at h
  by_cases c13 : tail.length = 13
  · rw [if_pos c13, if_pos c13] at h
    injection h with e1 e2 e3 e4
    simp only [M128Lanes.mk.injEq]
    refine ⟨?_, ?_, ?_, ?_⟩
    · exact Nat.xor_left_inj.mp e1
    · exact Nat.xor_left_inj.mp e2
    · exact Nat.xor_left_inj.mp e3
    · exact Nat.xor_left_inj.mp e4
  rw [if_neg c13, if_neg c13] at h
  by_cases c12 : tail.length = 12
  · rw [if_pos c12, if_pos c12] at h
    injection h with e1 e2 e3 e4
    simp only [M128Lanes.mk.injEq]
    refine ⟨?_, ?_, ?_, ?_⟩
    · exact Nat.xor_left_inj.mp e1
    · exact Nat.xor_left_inj.mp e2
    · exact Nat.xor_left_inj.mp e3
    · exact e4
  rw [if_neg c12, if_neg c12] at h
  by_cases c11 : tail.length = 11
  · rw [if_pos c11, if_pos c11] at h
    injection h with e1 e2 e3 e4
    simp only [M128Lanes.mk.injEq]
    refine ⟨?_, ?_, ?_, ?_⟩
    · exact Nat.xor_left_inj.mp e1
    · exact Nat.xor_left_inj.mp e2
    · exact Nat.xor_left_inj.mp e3
    · exact e4
  rw [if_neg c11, if_neg c11] at h
  by_cases c10 : tail.length = 10
  · rw [if_pos c10, if_pos c10] at h
    injection h with e1 e2 e3 e4
    simp only [M128Lanes.mk.injEq]
    refine ⟨?_, ?_, ?_, ?_⟩
    · exact Nat.xor_left_inj.mp e1
    · exact Nat.xor_left_inj.mp e2
    · exact Nat.xor_left_inj.mp e3
    · exact e4
  rw [if_neg c10, if_neg c10] at h
  by_cases c9 : tail.length = 9
  · rw [if_pos c9, if_pos c9] at h
    injection h with e1 e2 e3 e4
    simp only [M128Lanes.mk.injEq]
    refine ⟨?_, ?_, ?_, ?_⟩
    · exact Nat.xor_left_inj.mp e1
    · exact Nat.xor_left_inj.mp e2
    · exact Nat.xor_left_inj.mp e3
    · exact e4
  rw [if_neg c9, if_neg c9] at h
  by_cases c8 : tail.length = 8
  · rw [if_pos c8, if_pos c8] at h
    injection h with e1 e2 e3 e4
    simp only [M128Lanes.mk.injEq]
    refine ⟨?_, ?_, ?_, ?_⟩
    · exact Nat.xor_left_inj.mp e1
    · exact Nat.xor_left_inj.mp e2
    · exact e3
    · exact e4
  rw [if_neg c8, if_neg c8] at h
  by_cases c7 : tail.length = 7
  · rw [if_pos c7, if_pos c7] at h
    injection h with e1 e2 e3 e4
    simp only [M128Lanes.mk.injEq]
    refine ⟨?_, ?_, ?_, ?_⟩
    · exact Nat.xor_left_inj.mp e1
    · exact Nat.xor_left_inj.mp e2
    · exact e3
    · exact e4
  rw [if_neg c7, if_neg c7] at h
  by_cases c6 : tail.length = 6
  · rw [if_pos c6, if_pos c6] at h
    injection h with e1 e2 e3 e4
    simp only [M128Lanes.mk.injEq]
    refine ⟨?_, ?_, ?_, ?_⟩
    · exact Nat.xor_left_inj.mp e1
    · exact Nat.xor_left_inj.mp e2
    · exact e3
    · exact e4
  rw [if_neg c6, if_neg c6] at h
  by_cases c5 : tail.length = 5
  · rw [if_pos c5, if_pos c5] at h
    injection h with e1 e2 e3 e4
    simp only [M128Lanes.mk.injEq]
    refine ⟨?_, ?_, ?_, ?_⟩
    · exact Nat.xor_left_inj.mp e1
    · exact Nat.xor_left_inj.mp e2
    · exact e3
    · exact e4
  rw [if_neg c5, if_neg c5] at h
  by_cases c4 : tail.length = 4
  · rw [if_pos c4, if_pos c4] at h
    injection h with e1 e2 e3 e4
    simp only [M128Lanes.mk.injEq]
    refine ⟨?_, ?_, ?_, ?_⟩
    · exact Nat.xor_left_inj.mp e1
    · exact e2
    · exact e3
    · exact e4
  rw [if_neg c4, if_neg c4] at h
  by_cases c3 : tail.length = 3
  · rw [if_pos c3, if_pos c3] at h
    injection h with e1 e2 e3 e4
    simp only [M128Lanes.mk.injEq]
    refine ⟨?_, ?_, ?_, ?_⟩
    · exact Nat.xor_left_inj.mp e1
    · exact e2
    · exact e3
    · exact e4
  rw [if_neg c3, if_neg c3] at h
  by_cases c2 : tail.length = 2
  · rw [if_pos c2, if_pos c2] at h
    injection h with e1 e2 e3 e4
    simp only [M128Lanes.mk.injEq]
    refine ⟨?_, ?_, ?_, ?_⟩
    · exact Nat.xor_left_inj.mp e1
    · exact e2
    · exact e3
    · exact e4
  rw [if_neg c2, if_neg c2] at h
  by_cases c1 : tail.length = 1
  · rw [if_pos c1, if_pos c1] at h
    injection h with e1 e2 e3 e4
    simp only [M128Lanes.mk.injEq]
    refine ⟨?_, ?_, ?_, ?_⟩
    · exact Nat.xor_left_inj.mp e1
    · exact e2
    · exact e3
    · exact e4
  rw [if_neg c1, if_neg c1] at h
  exact h

/-- Packing four 32-bit words as `(f4 << 96) | (f3 << 64) | (f2 << 32) | f1`
is injective. -/
theorem pack128_inj {f1 f2 f3 f4 g1 g2 g3 g4 : Nat}
    (hf1 : f1 < 2 ^ 32) (hf2 : f2 < 2 ^ 32) (hf3 : f3 < 2 ^ 32) (hf4 : f4 < 2 ^ 32)
    (hg1 : g1 < 2 ^ 32) (hg2 : g2 < 2 ^ 32) (hg3 : g3 < 2 ^ 32) (hg4 : g4 < 2 ^ 32)
    (h : (f4 <<< 96) ||| (f3 <<< 64) ||| (f2 <<< 32) ||| f1
        = (g4 <<< 96) ||| (g3 <<< 64) ||| (g2 <<< 32) ||| g1) :
    f1 = g1 ∧ f2 = g2 ∧ f3 = g3 ∧ f4 = g4 := by
  have e : ∀ a1 a2 a3 a4 : Nat, a1 < 2 ^ 32 → a2 < 2 ^ 32 → a3 < 2 ^ 32 → a4 < 2 ^ 32 →
      (a4 <<< 96) ||| (a3 <<< 64) ||| (a2 <<< 32) ||| a1
        = a4 * 2 ^ 96 + a3 * 2 ^ 64 + a2 * 2 ^ 32 + a1 := by
    intro a1 a2 a3 a4 h1 h2 h3 h4
    have s1 : (a4 <<< 96) ||| (a3 <<< 64) = a4 <<< 96 + a3 <<< 64 :=
      lor_eq_add_of_low_zero 96 (a4 <<< 96) (a3 <<< 64)
        (by rw [Nat.shiftLeft_eq]; omega)
        (by rw [Nat.shiftLeft_eq]; exact Nat.mul_mod_left _ _)
    have s2 : (a4 <<< 96 + a3 <<< 64) ||| (a2 <<< 32) = a4 <<< 96 + a3 <<< 64 + a2 <<< 32 :=
      lor_eq_add_of_low_zero 64 (a4 <<< 96 + a3 <<< 64) (a2 <<< 32)
        (by rw [Nat.shiftLeft_eq]; omega)
        (by rw [Nat.shiftLeft_eq, Nat.shiftLeft_eq]; omega)
    have s3 : (a4 <<< 96 + a3 <<< 64 + a2 <<< 32) ||| a1
        = a4 <<< 96 + a3 <<< 64 + a2 <<< 32 + a1 :=
      lor_eq_add_of_low_zero 32 (a4 <<< 96 + a3 <<< 64 + a2 <<< 32) a1 h1
        (by rw [Nat.shiftLeft_eq, Nat.shiftLeft_eq, Nat.shiftLeft_eq]; omega)
    rw [s1, s2, s3, Nat.shiftLeft_eq, Nat.shiftLeft_eq, Nat.shiftLeft_eq]
  rw [e f1 f2 f3 f4 hf1 hf2 hf3 hf4, e g1 g2 g3 g4 hg1 hg2 hg3 hg4] at h
  refine ⟨?_, ?_, ?_, ?_⟩ <;> omega

/-- `finish_u128` determines the lanes, given the byte count: the length XOR,
the cross-lane wrapping additions, `fmix32` per lane, and the 128-bit packing
are each invertible on bounded lanes. -/
theorem finish_u128_inj {a b : MurmurHasher128} (hA : M128Bounded a.lanes)
    (hB : M128Bounded b.lanes) (hlen : a.length = b.length)
    (h : a.finish_u128 = b.finish_u128) : a.lanes = b.lanes := by
  obtain ⟨la, na⟩ := a
  obtain ⟨lb, nb⟩ := b
  rcases la with ⟨a1, a2, a3, a4⟩
  rcases lb with ⟨b1, b2, b3, b4⟩
  obtain ⟨hA1, hA2, hA3, hA4⟩ := hA
  obtain ⟨hB1, hB2, hB3, hB4⟩ := hB
  simp only at hlen
  subst hlen
  simp only [MurmurHasher128.finish_u128] at h
  have hM : M32 = 2 ^ 32 := rfl
  rw [hM] at h
  have hl : na % 2 ^ 32 < 2 ^ 32 := Nat.mod_lt _ (by norm_num)
  have hx1a : a1 ^^^ na % 2 ^ 32 < 2 ^ 32 := Nat.xor_lt_two_pow hA1 hl
  have hx2a : a2 ^^^ na % 2 ^ 32 < 2 ^ 32 := Nat.xor_lt_two_pow hA2 hl
  have hx3a : a3 ^^^ na % 2 ^ 32 < 2 ^ 32 := Nat.xor_lt_two_pow hA3 hl
  have hx4a : a4 ^^^ na % 2 ^ 32 < 2 ^ 32 := Nat.xor_lt_two_pow hA4 hl
  have hx1b : b1 ^^^ na % 2 ^ 32 < 2 ^ 32 := Nat.xor_lt_two_pow hB1 hl
  have hx2b : b2 ^^^ na % 2 ^ 32 < 2 ^ 32 := Nat.xor_lt_two_pow hB2 hl
  have hx3b : b3 ^^^ na % 2 ^ 32 < 2 ^ 32 := Nat.xor_lt_two_pow hB3 hl
  have hx4b : b4 ^^^ na % 2 ^ 32 < 2 ^ 32 := Nat.xor_lt_two_pow hB4 hl
  obtain ⟨p1, p2, p3, p4⟩ := pack128_inj (fmix32_lt _) (fmix32_lt _) (fmix32_lt _)
    (fmix32_lt _) (fmix32_lt _) (fmix32_lt _) (fmix32_lt _) (fmix32_lt _) h
  have hH := fmix32_inj (Nat.mod_lt _ (by norm_num)) (Nat.mod_lt _ (by norm_num)) p1
  have q2 := fmix32_inj (Nat.mod_lt _ (by norm_num)) (Nat.mod_lt _ (by norm_num)) p2
  have q3 := fmix32_inj (Nat.mod_lt _ (by norm_num)) (Nat.mod_lt _ (by norm_num)) p3
  have q4 := fmix32_inj (Nat.mod_lt _ (by norm_num)) (Nat.mod_lt _ (by norm_num)) p4
  rw [hH] at q2 q3 q4
  have e2 : a2 = b2 := Nat.xor_left_inj.mp (addmod_cancel hx2a hx2b q2)
  have e3 : a3 = b3 := Nat.xor_left_inj.mp (addmod_cancel hx3a hx3b q3)
  have e4 : a4 = b4 := Nat.xor_left_inj.mp (addmod_cancel hx4a hx4b q4)
  rw [e2, e3, e4] at hH
  have t1 := addmod_cancel (Nat.mod_lt _ (by norm_num)) (Nat.mod_lt _ (by norm_num)) hH
  have t2 := addmod_cancel (Nat.mod_lt _ (by norm_num)) (Nat.mod_lt _ (by norm_num)) t1
  have e1 : a1 = b1 := Nat.xor_left_inj.mp (addmod_cancel hx1a hx1b t2)
  simp only [M128Lanes.mk.injEq]
  exact ⟨e1, e2, e3, e4⟩

/-- For fixed data, the 128-bit hash is injective in the 32-bit seed. -/
theorem murmurhash3_128_seed_inj (data : List Nat) {s1 s2 : Nat} (h1 : s1 < 2 ^ 32)
    (h2 : s2 < 2 ^ 32) (h : murmurhash3_128 data s1 = murmurhash3_128 data s2) : s1 = s2 := by
  unfold murmurhash3_128 at h
  have hb1 : M128Bounded ((MurmurHasher128.new s1).write data).lanes :=
    murmur128Tail_bounded _ (murmur128Body_bounded data ⟨h1, h1, h1, h1⟩)
  have hb2 : M128Bounded ((MurmurHasher128.new s2).write data).lanes :=
    murmur128Tail_bounded _ (murmur128Body_bounded data ⟨h2, h2, h2, h2⟩)
  have hlanes := finish_u128_inj hb1 hb2 rfl h
  simp only [MurmurHasher128.write, MurmurHasher128.new] at hlanes
  have hbody := murmur128Tail_inj _ hlanes
  have hmk := murmur128Body_inj data ⟨h1, h1, h1, h1⟩ ⟨h2, h2, h2, h2⟩ hbody
  exact congrArg M128Lanes.h1 hmk

/-- C8: for every non-empty input and every pair of distinct 32-bit seeds,
`murmurhash3_32` and `murmurhash3_128` give different hashes: for fixed
input the seed-to-hash map is injective, because every state-update step
(XOR, rotation, odd-constant wrapping multiplication, wrapping addition,
`fmix32`, and the lane packing) is invertible on the bounded state. -/
theorem murmur_seed_sensitivity (data : List Nat) (hne : data ≠ [])
    {s1 s2 : Nat} (hs1 : s1 < 2 ^ 32) (hs2 : s2 < 2 ^ 32) (hss : s1 ≠ s2) :
    murmurhash3_32 data s1 ≠ murmurhash3_32 data s2 ∧
      murmurhash3_128 data s1 ≠ murmurhash3_128 data s2 :=
  ⟨fun h => hss (murmurhash3_32_seed_inj data hs1 hs2 h),
   fun h => hss (murmurhash3_128_seed_inj data hs1 hs2 h)⟩

/-- Witness for C8 at the one-byte input `[1]` with seeds `0` and `1`. -/
theorem murmur_seed_sensitivity_witness :
    ([1] : List Nat) ≠ [] ∧ (0 : Nat) < 2 ^ 32 ∧ (1 : Nat) < 2 ^ 32 ∧ (0 : Nat) ≠ 1 ∧
      (murmurhash3_32 [1] 0 ≠ murmurhash3_32 [1] 1 ∧
        murmurhash3_128 [1] 0 ≠ murmurhash3_128 [1] 1) :=
  ⟨by decide, by decide, by decide, by decide,
   murmur_seed_sensitivity [1] (by decide) (by decide) (by decide) (by decide)⟩

end SimpleHash
